import Mathlib

/-! Peer QR box.

A shallow embedding of `Telegram/SourceFiles/ui/boxes/peer_qr_box.cpp`: the module
pixel clamp of `TelegramQr`, the gradient and layout arithmetic of `Paint`, the dot
geometry updater of `AddDotsToSlider`, and the palette, slider and copy action of
`FillPeerQrBox`.

C++ `int` values are embedded as `Int` (all quantities are pixel metrics and small
counters, far away from the 32-bit range); `int / int` is truncating division. The one
product taken on caller-supplied values, the guard of `TelegramQr`, wraps to 32 bits.
A `float64` value is embedded as the rational it denotes, and every `double`
operation of `Paint` rounds its exact result to the nearest `float64`, ties to even.
-/

namespace PeerQrBox

/-! ## Integers, colours, margins, rectangles -/

/-- The quotient `a / b` of C++ on `int`: truncated toward zero. -/
def cdiv (a b : Int) : Int := Int.tdiv a b

/-- The remainder `a % b` of C++ on `int`: it has the sign of the dividend. -/
def cmod (a b : Int) : Int := Int.tmod a b

/-- A `QColor`, by its four channels. -/
structure QColor where
  r : Int
  g : Int
  b : Int
  a : Int
deriving DecidableEq, Repr

/-- The colour vector, `using Colors = std::vector<QColor>`. -/
abbrev Colors := List QColor

/-- The margins `QMargins(left, top, right, bottom)`. -/
structure QMargins where
  left : Int
  top : Int
  right : Int
  bottom : Int
deriving DecidableEq, Repr

/-- Left plus right margin, `rect::m::sum::h`. -/
def sumH (m : QMargins) : Int := m.left + m.right

/-- Top plus bottom margin, `rect::m::sum::v`. -/
def sumV (m : QMargins) : Int := m.top + m.bottom

/-- The margins `NoPhotoBackgroundMargins()`: the top margin is replaced by the left
one. -/
def NoPhotoBackgroundMargins (profileQrBackgroundMargins : QMargins) : QMargins :=
  ⟨profileQrBackgroundMargins.left,
   profileQrBackgroundMargins.left,
   profileQrBackgroundMargins.right,
   profileQrBackgroundMargins.bottom⟩

/-! ## Constants -/

/-- Modelled from the spec: `style::kScaleDefault` is declared outside this file; the
interface scale is a percentage and the default scale is 100. -/
def kScaleDefault : Int := 100

/-- The constant `constexpr auto kMaxQualities = 3;` -/
def kMaxQualities : Int := 3

/-- The constant `constexpr auto kMaxInRow = 4;` -/
def kMaxInRow : Int := 4

/-- The constant `constexpr auto kMaxColors = 4;` -/
def kMaxColors : Nat := 4

/-- The constant `constexpr auto kDuration = crl::time(10000);` -/
def kDuration : Int := 10000

/-! ## The state of the box -/

/-- The data fields of `FillPeerQrBox::State`. -/
structure State where
  userpicToggled : Bool
  bgs : Colors
  chosen : Int
  scaleValue : Int
deriving DecidableEq, Repr

/-- The freshly made state: `userpicToggled = true`, `bgs` empty, `chosen = 0`,
`scaleValue = 0`. -/
def State.init : State := ⟨true, [], 0, 0⟩

/-! ## Quality slider and export scale -/

/-- The slider's index conversion `[=](int index) { return index; }`. -/
def sliderConvert (index : Int) : Int := index

/-- The slider's change callback, as far as the state goes:
`state->scaleValue = scale`. -/
def sliderCallback (s : State) (scale : Int) : State :=
  { s with scaleValue := scale }

/-- Moving the pseudo-discrete slider to position `q`: the callback receives the
converted index. -/
def sliderMoved (s : State) (q : Int) : State :=
  sliderCallback s (sliderConvert q)

/-- The copy action's
`scale = style::kScaleDefault * (kMaxQualities + int(state->scaleValue.current() * 2))`. -/
def copyScale (s : State) : Int :=
  kScaleDefault * (kMaxQualities + s.scaleValue * 2)

/-- The copy action's
`divider = std::max(1, style::Scale()) / style::kScaleDefault`. -/
def copyDivider (styleScale : Int) : Int :=
  cdiv (max 1 styleScale) kScaleDefault

/-! ## Cloud themes and the palette -/

/-- The enumeration `Data::CloudThemeType`. -/
inductive CloudThemeType where
  | Dark
  | Light
deriving DecidableEq, Repr

/-- A `Data::WallPaper`, by what `backgroundColors()` returns. -/
structure WallPaper where
  backgroundColors : Colors
deriving DecidableEq, Repr

/-- A `Data::CloudThemeSettings`, by its optional `paper`. -/
structure CloudThemeSettings where
  paper : Option WallPaper
deriving DecidableEq, Repr

/-- A `Data::CloudTheme`, by its `settings` map (`find` returns the first entry of the
key). -/
structure CloudTheme where
  settings : List (CloudThemeType × CloudThemeSettings)
deriving DecidableEq, Repr

/-- The three style colours of the built-in palette entry. -/
structure PremiumColors where
  premiumButtonBg1 : QColor
  premiumButtonBg2 : QColor
  premiumButtonBg3 : QColor
deriving DecidableEq, Repr

/-- The `transform` lambda of `fill`: the theme's Light paper colours when there are
exactly `kMaxColors` of them, the empty list otherwise. -/
def themeColors (cloudTheme : CloudTheme) : Colors :=
  match cloudTheme.settings.lookup CloudThemeType.Light with
  | none => []
  | some second =>
    let colors : Colors :=
      match second.paper with
      | some paper => paper.backgroundColors
      | none => []
    if colors.length ≠ kMaxColors then [] else colors

/-- The entry pushed at the end of `colorsCollection`. -/
def builtinColors (st : PremiumColors) : Colors :=
  [st.premiumButtonBg1, st.premiumButtonBg1, st.premiumButtonBg2, st.premiumButtonBg3]

/-- The `colorsCollection` of `fill`: transform, filter the non-empty lists, then
push the built-in entry. -/
def colorsCollection (st : PremiumColors) (cloudThemes : List CloudTheme) :
    List Colors :=
  ((cloudThemes.map themeColors).filter (fun colors => !colors.isEmpty))
    ++ [builtinColors st]

/-- The colours of the theme's Light paper, when the theme has a Light setting with a
paper (the wording of the palette rule). -/
def lightPaperColors (t : CloudTheme) : Option Colors :=
  match t.settings.lookup CloudThemeType.Light with
  | some s =>
    match s.paper with
    | some p => some p.backgroundColors
    | none => none
  | none => none

/-- A theme qualifies for the palette: it has a Light setting with a paper whose
colour list has exactly four entries. -/
def qualifies (t : CloudTheme) : Bool :=
  match lightPaperColors t with
  | some c => decide (c.length = 4)
  | none => false

/-- The palette as the rule words it: the Light paper colours of the qualifying
themes in their order, then the built-in entry. -/
def specPalette (st : PremiumColors) (cloudThemes : List CloudTheme) : List Colors :=
  (cloudThemes.filter qualifies).map (fun t => (lightPaperColors t).getD [])
    ++ [[st.premiumButtonBg1, st.premiumButtonBg1, st.premiumButtonBg2,
         st.premiumButtonBg3]]


/-! ## The palette buttons made by `fill` -/

/-- The style metrics `fill` lays the palette out with: `box->width()`,
`st::boxRowPadding` and `size = st::chatThemePreviewSize.width()`. -/
structure PaletteLayout where
  boxWidth : Int
  boxRowPadding : QMargins
  size : Int
deriving DecidableEq, Repr

/-- One palette button: the `counter` and `colors` its callbacks captured, the row it
was made a child of and the `x` of its `moveToLeft`. -/
structure PaletteButton where
  counter : Int
  colors : Colors
  row : Int
  x : Int
deriving DecidableEq, Repr

/-- What the loop of `fill` carries: the background `state->bgs`, `counter`, the
number of rows made so far and the buttons made so far. -/
structure FillAcc where
  bgs : Colors
  counter : Int
  rows : Int
  widgets : List PaletteButton
deriving DecidableEq, Repr

/-- The `spacing` of `fill`:
`(0 + (box->width() - sum::h(st::boxRowPadding)) - (kMaxInRow * size)) / (kMaxInRow + 1)`. -/
def fillSpacing (lay : PaletteLayout) : Int :=
  cdiv ((0 + (lay.boxWidth - sumH lay.boxRowPadding)) - (kMaxInRow * lay.size))
    (kMaxInRow + 1)

/-- One pass of `for (const auto &colors : colorsCollection)`. -/
def fillStep (lay : PaletteLayout) (acc : FillAcc) (colors : Colors) : FillAcc :=
  let bgs := if acc.bgs.isEmpty then colors else acc.bgs
  let rows := if cmod acc.counter kMaxInRow = 0 then acc.rows + 1 else acc.rows
  let widget : PaletteButton :=
    ⟨acc.counter, colors, rows - 1,
     fillSpacing lay + (cmod acc.counter kMaxInRow) * (lay.size + fillSpacing lay)⟩
  ⟨bgs, acc.counter + 1, rows, acc.widgets ++ [widget]⟩

/-- The loop of `fill` over a collection, from `counter = 0` and no row. -/
def fillLoop (lay : PaletteLayout) (collection : List Colors) (bgs : Colors) : FillAcc :=
  collection.foldl (fillStep lay) ⟨bgs, 0, 0, []⟩

/-- The lambda `fill`: the state after it ran on the cloud themes. -/
def fill (st : PremiumColors) (lay : PaletteLayout) (cloudThemes : List CloudTheme)
    (s : State) : State :=
  { s with bgs := (fillLoop lay (colorsCollection st cloudThemes) s.bgs).bgs }

/-- The palette buttons `fill` makes on the cloud themes. -/
def fillButtons (st : PremiumColors) (lay : PaletteLayout)
    (cloudThemes : List CloudTheme) (s : State) : List PaletteButton :=
  (fillLoop lay (colorsCollection st cloudThemes) s.bgs).widgets

/-- The `operator[]` of a colour vector (only evaluated in bounds). -/
def colorAt (c : Colors) (i : Nat) : QColor := c.getD i ⟨0, 0, 0, 0⟩

/-- The animation callback a click starts, `[=](float64 value) { ... }`, for the
captured `colors`; the interpolation `anim::color` lives outside this file and is a
parameter. -/
def animationStep (animColor : QColor → QColor → ℚ → QColor) (colors : Colors)
    (value : ℚ) (s : State) : State :=
  let was := s.bgs
  let now := colors
  if was.length = now.length ∧ was.length = kMaxColors then
    { s with bgs := [
        animColor (colorAt was 0) (colorAt now 0) value,
        animColor (colorAt was 1) (colorAt now 1) value,
        animColor (colorAt was 2) (colorAt now 2) value,
        animColor (colorAt was 3) (colorAt now 3) value] }
  else s

/-- The state part of a button's clicked callback: `state->chosen = counter`. -/
def clicked (w : PaletteButton) (s : State) : State :=
  { s with chosen := w.counter }

/-- The animation callback run on a sequence of progress values, in order. -/
def animationRun (animColor : QColor → QColor → ℚ → QColor) (colors : Colors)
    (values : List ℚ) (s : State) : State :=
  values.foldl (fun acc v => animationStep animColor colors v acc) s

/-- The userpic toggle's clicked callback. -/
def userpicToggleClicked (s : State) : State :=
  { s with userpicToggled := !s.userpicToggled }

/-- One event on the box state. -/
inductive Event where
  | fill (st : PremiumColors) (lay : PaletteLayout) (cloudThemes : List CloudTheme)
  | click (w : PaletteButton)
  | animate (animColor : QColor → QColor → ℚ → QColor) (colors : Colors) (value : ℚ)
  | slider (q : Int)
  | toggle

/-- The state after one event. -/
def Event.apply (s : State) : Event → State
  | Event.fill st lay cloudThemes => PeerQrBox.fill st lay cloudThemes s
  | Event.click w => clicked w s
  | Event.animate animColor colors value => animationStep animColor colors value s
  | Event.slider q => sliderMoved s q
  | Event.toggle => userpicToggleClicked s

/-- The state after a sequence of events, from the initial state. -/
def runEvents (events : List Event) : State :=
  events.foldl Event.apply State.init


/-! ## `TelegramQr`: the module pixel size -/

/-- The value of an `int` expression whose exact value is `x`: reduced modulo `2^32`
into `[-2^31, 2^31)`, as the 32-bit product of `TelegramQr` wraps. -/
def wrapInt32 (x : Int) : Int := (x + 2147483648) % 4294967296 - 2147483648

/-- The pixel size `TelegramQr` hands to `Qr::Generate`, for `data.size = size`; none
when `Expects(data.size > 0)` fails. The body is
`if (max > 0 && data.size * pixel > max) pixel = std::max(max / data.size, 1);` with
the product computed in `int`. -/
def TelegramQrPixel (size pixel max : Int) : Option Int :=
  if size > 0 then
    some (if max > 0 ∧ wrapInt32 (size * pixel) > max then Max.max (cdiv max size) 1
      else pixel)
  else none

/-! ## `Paint`: rectangles and gradient -/

/-- The size `QSize(width, height)`. -/
structure QSize where
  width : Int
  height : Int
deriving DecidableEq, Repr

/-- A `QRect` by its left, top, width and height. -/
structure QRect where
  x : Int
  y : Int
  width : Int
  height : Int
deriving DecidableEq, Repr

/-- The rectangle `Rect(x, y, size)`. -/
def Rect (x y : Int) (size : QSize) : QRect := ⟨x, y, size.width, size.height⟩

/-- The right edge `rect::right(r)`: `r.x() + r.width()`. -/
def QRect.right (r : QRect) : Int := r.x + r.width

/-- The bottom edge `rect::bottom(r)`: `r.y() + r.height()`. -/
def QRect.bottom (r : QRect) : Int := r.y + r.height

/-- The rectangle grown by the margins, `QRect + QMargins`. -/
def QRect.addMargins (r : QRect) (m : QMargins) : QRect :=
  ⟨r.x - m.left, r.y - m.top, r.width + m.left + m.right, r.height + m.top + m.bottom⟩

/-- The rectangle as seen on the canvas after `p.translate(dx, dy)`. -/
def QRect.translated (r : QRect) (dx dy : Int) : QRect :=
  ⟨r.x + dx, r.y + dy, r.width, r.height⟩

/-- A `QImage` by its pixel size; it is null when it has no pixels. -/
structure QImage where
  width : Int
  height : Int
deriving DecidableEq, Repr

/-- The test `QImage::isNull()`. -/
def QImage.isNull (i : QImage) : Bool := decide (i.width ≤ 0 ∨ i.height ≤ 0)

/-- The value arguments of `Paint` (the painter and the font apart). -/
structure PaintArgs where
  text : String
  backgroundColors : Colors
  backgroundMargins : QMargins
  qrImage : QImage
  qrRect : QRect
  qrMaxSize : Int
  qrPixel : Int
  radius : Int
  textMaxHeight : Int
  photoSize : Int
deriving DecidableEq, Repr

/-- The `roundedRect` of `Paint`:
`qrRect + backgroundMargins + QMargins(0, photoSize / 2, 0, textMaxHeight)`. -/
def roundedRect (qrRect : QRect) (backgroundMargins : QMargins)
    (photoSize textMaxHeight : Int) : QRect :=
  (qrRect.addMargins backgroundMargins).addMargins
    ⟨0, cdiv photoSize 2, 0, textMaxHeight⟩

/-- The floor of the binary logarithm of `n` by repeated halving; `fuel` bounds the
number of halvings. -/
def log2Fuel : Nat → Nat → Nat
  | 0, _ => 0
  | fuel + 1, n => if 2 ≤ n then log2Fuel fuel (n / 2) + 1 else 0

/-- The floor of the binary logarithm of a natural number `n >= 1`. -/
def natLog2 (n : Nat) : Nat := log2Fuel n n

/-- The floor of the binary logarithm of a positive rational: the `L` with
`2^L <= a < 2^(L+1)`. -/
def ratLog2 (a : ℚ) : Int :=
  let l0 : Int := (natLog2 a.num.natAbs : Int) - (natLog2 a.den : Int)
  if (2 : ℚ) ^ l0 ≤ a then l0 else l0 - 1

/-- The integer nearest to `s`, a tie going to the even neighbour. -/
def roundHalfEven (s : ℚ) : Int :=
  let q := ⌊s⌋
  let r := s - (q : ℚ)
  if r < 1 / 2 then q
  else if 1 / 2 < r then q + 1
  else if q % 2 = 0 then q else q + 1

/-- The `float64` (IEEE 754 binary64) value of a `double` operation whose exact result
is `x`, as the rational it denotes: `x` rounded to nearest, ties to even, to a 53-bit
significand times a power of two, the exponent not below -1074 (subnormal range).
Overflow to infinity is not represented (no value here comes near `2^1024`). -/
def roundFloat64 (x : ℚ) : ℚ :=
  if x = 0 then 0
  else
    let a := |x|
    let e := max (ratLog2 a - 52) (-1074)
    let m := roundHalfEven (a / (2 : ℚ) ^ e)
    (if x < 0 then -1 else 1) * ((m : ℚ) * (2 : ℚ) ^ e)

/-- The conversion `int(x)` of a `double`: truncation toward zero. -/
def truncToInt (x : ℚ) : Int := if 0 ≤ x then ⌊x⌋ else ⌈x⌉

/-- The `angle` of `Paint` at clock value `now = crl::now()`:
`(now % kDuration) / float64(kDuration) * 360.0`, a `float64` division followed by a
`float64` multiplication (the integer operands convert exactly). -/
def paintAngle (now : Int) : ℚ :=
  roundFloat64
    (roundFloat64 (((cmod now kDuration : Int) : ℚ) / (kDuration : ℚ)) * 360)

/-- The rotation `gradientRotation = int(angle / 45.) * 45`. -/
def gradientRotation (now : Int) : Int :=
  truncToInt (roundFloat64 (paintAngle now / 45)) * 45

/-- The remainder `gradientRotationAdd = angle - gradientRotation`, a `float64`
subtraction. -/
def gradientRotationAdd (now : Int) : ℚ :=
  roundFloat64 (paintAngle now - (gradientRotation now : ℚ))

/-- The progress argument of the gradient: `1. - (gradientRotationAdd / 45.)`, a
`float64` division followed by a `float64` subtraction. -/
def gradientProgress (now : Int) : ℚ :=
  roundFloat64 (1 - roundFloat64 (gradientRotationAdd now / 45))

/-- The angle in exact arithmetic: `360 * (now mod 10000) / 10000`. -/
def exactAngle (now : Int) : ℚ := 360 * ((now % 10000 : Int) : ℚ) / 10000

/-- The call `Images::GenerateGradient(size, colors, rotation, progress)`. -/
structure GradientCall where
  size : QSize
  colors : Colors
  rotation : Int
  progress : ℚ
deriving DecidableEq, Repr

/-- The gradient call `Paint` makes when the clock reads `now`: none when the QR image
is null or there are no background colours. -/
def PaintGradient (args : PaintArgs) (now : Int) : Option GradientCall :=
  if !args.qrImage.isNull && !args.backgroundColors.isEmpty then
    some ⟨⟨args.qrRect.width, args.qrRect.height⟩, args.backgroundColors,
          gradientRotation now, gradientProgress now⟩
  else none

/-- Where `Paint` draws the caption image: `x = qrRect.x()` and
`y = bottom(qrRect) + ((bottom(roundedRect) - bottom(qrRect)) - textMaxHeight) / 2`. -/
def captionPos (args : PaintArgs) : Int × Int :=
  let rr := roundedRect args.qrRect args.backgroundMargins args.photoSize
    args.textMaxHeight
  (args.qrRect.x,
   args.qrRect.bottom + cdiv ((rr.bottom - args.qrRect.bottom) - args.textMaxHeight) 2)

/-- A `style::font`, by the size, flags and family it was made from. -/
structure StyleFont where
  size : Int
  flags : Int
  family : String
deriving DecidableEq, Repr

/-- One drawing operation of `Paint` on its painter. The gradient image `back` is
named by the call of `Images::GenerateGradient` that made it. -/
inductive PaintOp where
  | drawRoundedRect (rect : QRect) (radius : Int)
  | drawGradient (target : QRect) (back : GradientCall)
  | drawQrImage (target : QRect) (qrImage : QImage)
  | drawCaption (x y : Int) (textMaxHeight : Int) (devicePixelRatio : Int)
      (font : StyleFont) (text : String) (back : GradientCall)
deriving DecidableEq, Repr

/-- The drawing operations of `Paint`, in order, when the clock reads `now`
and `style::DevicePixelRatio()` is `devicePixelRatio`: the white card; then, unless
the QR image is null or there are no background colours, the gradient over the QR
rectangle, the QR image, and the caption (the text in `font`, coloured by the
gradient image, on an image `textMaxHeight` high) at `captionPos`. -/
def Paint (font : StyleFont) (devicePixelRatio : Int) (args : PaintArgs) (now : Int) :
    List PaintOp :=
  PaintOp.drawRoundedRect
      (roundedRect args.qrRect args.backgroundMargins args.photoSize args.textMaxHeight)
      args.radius
    :: (match PaintGradient args now with
        | none => []
        | some back =>
          [PaintOp.drawGradient args.qrRect back,
           PaintOp.drawQrImage args.qrRect args.qrImage,
           PaintOp.drawCaption (captionPos args).1 (captionPos args).2
             args.textMaxHeight devicePixelRatio font args.text back])

/-! ## The copy action: the export canvas -/

/-- The `resultSize` of the copy action. -/
def exportResultSize (qrMaxSize : Int) (backgroundMargins : QMargins)
    (textMaxHeight photoSize : Int) : QSize :=
  ⟨qrMaxSize + sumH backgroundMargins,
   qrMaxSize
     + sumV backgroundMargins
     + textMaxHeight
     + (if photoSize ≠ 0 then backgroundMargins.bottom * 3 + photoSize else 0)⟩

/-- The `qrRect` of the copy action. -/
def exportQrRect (resultSize qrImageSize : QSize) (backgroundMargins : QMargins)
    (photoSize : Int) : QRect :=
  Rect (cdiv (resultSize.width - qrImageSize.width) 2)
    (backgroundMargins.top + cdiv photoSize 2)
    qrImageSize

/-- The vertical translation of the export painter:
`if (userpicToggled) p.translate(0, photoSize / 2 + backgroundMargins.top())`. -/
def exportTranslateY (userpicToggled : Bool) (backgroundMargins : QMargins)
    (photoSize : Int) : Int :=
  if userpicToggled then cdiv photoSize 2 + backgroundMargins.top else 0

/-- The white card of the export on its canvas: the `roundedRect` that `Paint` draws
for the export's `qrRect`, under the painter's translation. -/
def exportCard (userpicToggled : Bool) (qrMaxSize : Int) (backgroundMargins : QMargins)
    (qrImageSize : QSize) (textMaxHeight photoSize : Int) : QRect :=
  let resultSize := exportResultSize qrMaxSize backgroundMargins textMaxHeight photoSize
  let qrRect := exportQrRect resultSize qrImageSize backgroundMargins photoSize
  (roundedRect qrRect backgroundMargins photoSize textMaxHeight).translated 0
    (exportTranslateY userpicToggled backgroundMargins photoSize)

/-- The rectangle lies inside the canvas `[0, size.width] x [0, size.height]`. -/
def QRect.insideCanvas (r : QRect) (size : QSize) : Prop :=
  0 ≤ r.x ∧ 0 ≤ r.y ∧ r.right ≤ size.width ∧ r.bottom ≤ size.height

instance (r : QRect) (size : QSize) : Decidable (r.insideCanvas size) := by
  unfold QRect.insideCanvas
  infer_instance

/-! ## `AddDotsToSlider`: the geometry updater -/

/-- The `style::MediaSlider` fields the dots use. -/
structure MediaSliderStyle where
  seekSize : QSize
  width : Int
deriving DecidableEq, Repr

/-- A small dot widget: the loop index `i` it was made at and its size. -/
structure SmallDot where
  created : Nat
  size : QSize
deriving DecidableEq, Repr

/-- The size `smallSize = Size(st.seekSize.height() - st.width)`. -/
def smallSize (st : MediaSliderStyle) : QSize :=
  ⟨st.seekSize.height - st.width, st.seekSize.height - st.width⟩

/-- The vector `smallDots` after `for (auto i = 0; i < count - 1; i++)`. -/
def smallDots (st : MediaSliderStyle) (count : Int) : List SmallDot :=
  (List.range (count - 1).toNat).map (fun i => ⟨i, smallSize st⟩)

/-- One `move` done by the updater. -/
inductive DotMove where
  | big (x y : Int)
  | small (k : Nat) (x y : Int)
deriving DecidableEq, Repr

/-- The small-dot index the updater uses at slot `i`: `(i < index) ? i : i - 1`. -/
def smallIndex (index i : Int) : Int := if i < index then i else i - 1

/-- The body of the updater's loop at slot `i`; none when `smallDots[k]` is out of
bounds. -/
def updateSlot (st : MediaSliderStyle) (g : QRect) (count index i : Int) :
    Option DotMove :=
  let bigTop := g.y + cdiv (g.height - st.seekSize.height) 2
  let smallTop := g.y + cdiv (g.height - (smallSize st).height) 2
  if index = i then
    let x : ℚ := (((g.width - st.seekSize.width) * i : Int) : ℚ) / ((count - 1 : Int) : ℚ)
    some (DotMove.big (g.x + ⌈x⌉) bigTop)
  else
    let k := smallIndex index i
    if k < 0 then none
    else
      match (smallDots st count)[k.toNat]? with
      | none => none
      | some dot =>
        let w := dot.size.width
        some (DotMove.small k.toNat (g.x + cdiv ((g.width - w) * i) (count - 1)) smallTop)

/-- The updater returned by `AddDotsToSlider`, `[=](int index) { ... }`: the moves of
`for (auto i = 0; i < count; ++i)` in order, none when an access is out of bounds. -/
def updateGeometry (st : MediaSliderStyle) (g : QRect) (count index : Int) :
    Option (List DotMove) :=
  (List.range count.toNat).mapM (fun (i : Nat) => updateSlot st g count index (i : Int))

/-- The number of moves of the big dot among the moves. -/
def bigMoves : List DotMove → Nat
  | [] => 0
  | DotMove.big _ _ :: rest => bigMoves rest + 1
  | DotMove.small _ _ _ :: rest => bigMoves rest

/-- The small-dot indices moved, in the order of the moves. -/
def smallMoves : List DotMove → List Nat
  | [] => []
  | DotMove.big _ _ :: rest => smallMoves rest
  | DotMove.small k _ _ :: rest => k :: smallMoves rest


/-! ## Caption lines, caption rectangle and dot colours -/

/-- The `qrWidth` of both the widget and the copy action:
`qrImage.width() / style::DevicePixelRatio()`. -/
def qrWidthOf (qrImage : QImage) (devicePixelRatio : Int) : Int :=
  cdiv qrImage.width devicePixelRatio

/-- The `lines` of `PrepareQrWidget`: `int(state->textWidth / qrWidth) + 1`. -/
def PrepareQrWidgetLines (textWidth : Int) (qrImage : QImage) (devicePixelRatio : Int) :
    Int :=
  let qrWidth := qrWidthOf qrImage devicePixelRatio
  cdiv textWidth qrWidth + 1

/-- The `state->textMaxHeight` of `PrepareQrWidget`: `font->height * lines`. -/
def PrepareQrWidgetTextMaxHeight (fontHeight textWidth : Int) (qrImage : QImage)
    (devicePixelRatio : Int) : Int :=
  fontHeight * PrepareQrWidgetLines textWidth qrImage devicePixelRatio

/-- The `lines` of the copy action: `int(textWidth / qrWidth) + 1`. -/
def copyLines (textWidth : Int) (qrImage : QImage) (devicePixelRatio : Int) : Int :=
  let qrWidth := qrWidthOf qrImage devicePixelRatio
  cdiv textWidth qrWidth + 1

/-- The `textMaxHeight` of the copy action: `font->height * lines`. -/
def copyTextMaxHeight (fontHeight textWidth : Int) (qrImage : QImage)
    (devicePixelRatio : Int) : Int :=
  fontHeight * copyLines textWidth qrImage devicePixelRatio

/-- The rectangle the caption image covers: it is drawn at `captionPos` and has the
size `coloredSize = QSize(back.width(), textMaxHeight)`, for the gradient image
`back`. -/
def captionRect (args : PaintArgs) (back : QImage) : QRect :=
  ⟨(captionPos args).1, (captionPos args).2, back.width, args.textMaxHeight⟩

/-- The rectangle `r` lies inside the rectangle `outer`. -/
def QRect.insideRect (r outer : QRect) : Prop :=
  outer.x ≤ r.x ∧ outer.y ≤ r.y ∧ r.right ≤ outer.right ∧ r.bottom ≤ outer.bottom

instance (r outer : QRect) : Decidable (r.insideRect outer) := by
  unfold QRect.insideRect
  infer_instance

/-- The two brushes a small dot is painted with. -/
inductive DotFg where
  | activeFg
  | inactiveFg
deriving DecidableEq, Repr

/-- The brush of a small dot's paint handler, for the slider value `value`:
`(slider->value() > (i / float64(count - 1))) ? st.activeFg : st.inactiveFg`, with the
`i` the dot was made at, in exact arithmetic. -/
def smallDotFg (value : ℚ) (count : Int) (dot : SmallDot) : DotFg :=
  if value > ((dot.created : Int) : ℚ) / ((count - 1 : Int) : ℚ) then DotFg.activeFg
  else DotFg.inactiveFg

/-- The small dot the updater places at slot `i`, none at the big dot's slot or when
the access is out of bounds. -/
def dotAtSlot (st : MediaSliderStyle) (count index i : Int) : Option SmallDot :=
  if index = i then none
  else
    let k := smallIndex index i
    if k < 0 then none else (smallDots st count)[k.toNat]?

/-- The pairs of counter and colours of the buttons made for a collection, counting
from `c`. -/
def countersFrom (c : Int) : List Colors → List (Int × Colors)
  | [] => []
  | x :: xs => (c, x) :: countersFrom (c + 1) xs

/-- The background has no colours or exactly four. -/
def bgsOk (s : State) : Prop := s.bgs.length = 0 ∨ s.bgs.length = 4

/-- A call of `Paint` with a QR image and four background colours. -/
def paintArgsSample : PaintArgs :=
  ⟨"@USERNAME",
   [⟨1, 1, 1, 255⟩, ⟨1, 1, 1, 255⟩, ⟨2, 2, 2, 255⟩, ⟨3, 3, 3, 255⟩],
   ⟨36, 12, 36, 12⟩, ⟨250, 250⟩, ⟨36, 52, 250, 250⟩, 250, 10, 12, 30, 80⟩

/-- The move the updater makes at slot `i` when its accesses are in bounds. -/
def slotMove (st : MediaSliderStyle) (g : QRect) (count index : Int) (i : Nat) : DotMove :=
  if index = (i : Int) then
    DotMove.big
      (g.x + ⌈((((g.width - st.seekSize.width) * (i : Int) : Int) : ℚ)
        / ((count - 1 : Int) : ℚ))⌉)
      (g.y + cdiv (g.height - st.seekSize.height) 2)
  else
    DotMove.small (smallIndex index (i : Int)).toNat
      (g.x + cdiv ((g.width - (smallSize st).width) * (i : Int)) (count - 1))
      (g.y + cdiv (g.height - (smallSize st).height) 2)

/-- The small-dot index of slot `i` on natural numbers. -/
def smallIndexNat (index i : Nat) : Nat := if i < index then i else i - 1

/-- A palette button sits where the grid rule puts its counter: row `counter / 4` and
`x = spacing + (counter mod 4) * (size + spacing)`. -/
def buttonPlaced (lay : PaletteLayout) (w : PaletteButton) : Prop :=
  0 ≤ w.counter ∧ w.row = w.counter / 4
    ∧ w.x = fillSpacing lay + (w.counter % 4) * (lay.size + fillSpacing lay)

/-- What holds of the gradient arguments at a clock residue `m`: the rotation is
`45 * (m / 1250)`, the progress lies in `(0, 1]`, and `rotation + 45 * (1 - progress)`
is within `10^-13` of the exact angle. -/
def residueGood (m : Int) : Prop :=
  gradientRotation m = 45 * (m / 1250)
  ∧ 0 < gradientProgress m
  ∧ gradientProgress m ≤ 1
  ∧ abs ((gradientRotation m : ℚ) + 45 * (1 - gradientProgress m) - exactAngle m)
      ≤ 1 / 10 ^ 13

instance (m : Int) : Decidable (residueGood m) := by
  unfold residueGood
  infer_instance

/-! ## Helper lemmas -/

theorem cdiv_eq_ediv {a b : Int} (ha : 0 ≤ a) (hb : 0 ≤ b) : cdiv a b = a / b :=
  Int.tdiv_eq_ediv ha hb

theorem cmod_eq_emod {a b : Int} (ha : 0 ≤ a) (hb : 0 ≤ b) : cmod a b = a % b :=
  Int.tmod_eq_emod ha hb

theorem themeColors_of_qualifies (t : CloudTheme) (h : qualifies t = true) :
    themeColors t = (lightPaperColors t).getD [] ∧ (themeColors t).length = 4 := by
  unfold qualifies lightPaperColors at h
  unfold themeColors lightPaperColors
  cases hl : t.settings.lookup CloudThemeType.Light with
  | none => simp [hl] at h
  | some second =>
    cases hp : second.paper with
    | none => simp [hl, hp] at h
    | some paper =>
      have h4 : paper.backgroundColors.length = 4 := by simpa [hl, hp] using h
      simp [hp, h4, kMaxColors]

theorem themeColors_of_not_qualifies (t : CloudTheme) (h : qualifies t = false) :
    themeColors t = [] := by
  unfold qualifies lightPaperColors at h
  unfold themeColors
  cases hl : t.settings.lookup CloudThemeType.Light with
  | none => rfl
  | some second =>
    cases hp : second.paper with
    | none => simp [hp, kMaxColors]
    | some paper =>
      have h4 : ¬ paper.backgroundColors.length = 4 := by simpa [hl, hp] using h
      simp [hp, h4, kMaxColors]

theorem filter_themeColors (cloudThemes : List CloudTheme) :
    (cloudThemes.map themeColors).filter (fun colors => !colors.isEmpty)
      = (cloudThemes.filter qualifies).map (fun t => (lightPaperColors t).getD []) := by
  induction cloudThemes with
  | nil => rfl
  | cons t rest ih =>
    cases hq : qualifies t with
    | true =>
      obtain ⟨h1, h2⟩ := themeColors_of_qualifies t hq
      have hne : (themeColors t).isEmpty = false := by
        cases hc : themeColors t with
        | nil => simp [hc] at h2
        | cons _ _ => rfl
      rw [List.map_cons, List.filter_cons, List.filter_cons]
      rw [h1] at hne
      simp only [hq, hne, Bool.not_false, if_true, List.map_cons, ih, h1]
    | false =>
      have h1 := themeColors_of_not_qualifies t hq
      simp [List.filter_cons, hq, h1, ih]

theorem colorsCollection_length_four (st : PremiumColors) (cloudThemes : List CloudTheme)
    (e : Colors) (he : e ∈ colorsCollection st cloudThemes) : e.length = 4 := by
  unfold colorsCollection at he
  rw [filter_themeColors] at he
  simp only [List.mem_append, List.mem_map, List.mem_filter, List.mem_singleton] at he
  rcases he with ⟨t, ⟨_, hq⟩, rfl⟩ | rfl
  · obtain ⟨h1, h2⟩ := themeColors_of_qualifies t hq
    rw [← h1]; exact h2
  · rfl

theorem foldl_fillStep_bgs (lay : PaletteLayout) (l : List Colors) (acc : FillAcc)
    (h : acc.bgs ≠ []) : (l.foldl (fillStep lay) acc).bgs = acc.bgs := by
  induction l generalizing acc with
  | nil => rfl
  | cons c rest ih =>
    have hstep : (fillStep lay acc c).bgs = acc.bgs := by
      cases hb : acc.bgs with
      | nil => exact absurd hb h
      | cons x xs => simp [fillStep, hb]
    rw [List.foldl_cons, ih _ (by rw [hstep]; exact h), hstep]

theorem fillLoop_bgs (lay : PaletteLayout) (c : Colors) (rest : List Colors)
    (bgs : Colors) (hc : c ≠ []) :
    (fillLoop lay (c :: rest) bgs).bgs = if bgs.isEmpty then c else bgs := by
  unfold fillLoop
  rw [List.foldl_cons]
  have hstep : (fillStep lay ⟨bgs, 0, 0, []⟩ c).bgs = if bgs.isEmpty then c else bgs := rfl
  rw [foldl_fillStep_bgs, hstep]
  rw [hstep]
  cases bgs with
  | nil => simpa using hc
  | cons x xs => simp

theorem colorsCollection_cons (st : PremiumColors) (cloudThemes : List CloudTheme) :
    ∃ c rest, colorsCollection st cloudThemes = c :: rest ∧ c.length = 4 := by
  cases h : colorsCollection st cloudThemes with
  | nil => simp [colorsCollection] at h
  | cons c rest =>
    exact ⟨c, rest, rfl, colorsCollection_length_four st cloudThemes c (by simp [h])⟩

theorem fill_bgs (st : PremiumColors) (lay : PaletteLayout)
    (cloudThemes : List CloudTheme) (s : State) :
    ∃ c rest, colorsCollection st cloudThemes = c :: rest ∧ c.length = 4
      ∧ (fill st lay cloudThemes s).bgs = if s.bgs.isEmpty then c else s.bgs := by
  obtain ⟨c, rest, hcr, hlen⟩ := colorsCollection_cons st cloudThemes
  refine ⟨c, rest, hcr, hlen, ?_⟩
  have hne : c ≠ [] := by
    intro h0
    rw [h0] at hlen
    simp at hlen
  simp only [fill, hcr]
  exact fillLoop_bgs lay c rest s.bgs hne

theorem foldl_fillStep_widgets (lay : PaletteLayout) (l : List Colors) (acc : FillAcc) :
    (l.foldl (fillStep lay) acc).widgets.map (fun w => (w.counter, w.colors))
      = acc.widgets.map (fun w => (w.counter, w.colors)) ++ countersFrom acc.counter l := by
  induction l generalizing acc with
  | nil => simp [countersFrom]
  | cons c rest ih =>
    rw [List.foldl_cons, ih]
    simp [fillStep, countersFrom]

theorem countersFrom_getElem? (l : List Colors) (c : Int) (k : Nat) :
    (countersFrom c l)[k]? = (l[k]?).map (fun x => (c + (k : Int), x)) := by
  induction l generalizing c k with
  | nil => simp [countersFrom]
  | cons x xs ih =>
    cases k with
    | zero => simp [countersFrom]
    | succ n =>
      simp only [countersFrom, List.getElem?_cons_succ, ih]
      cases xs[n]? with
      | none => rfl
      | some y =>
        simp only [Option.map_some']
        congr 2
        push_cast
        ring

theorem countersFrom_length (l : List Colors) (c : Int) :
    (countersFrom c l).length = l.length := by
  induction l generalizing c with
  | nil => rfl
  | cons x xs ih => simp [countersFrom, ih]

theorem fillButtons_pairs (st : PremiumColors) (lay : PaletteLayout)
    (cloudThemes : List CloudTheme) (s : State) :
    (fillButtons st lay cloudThemes s).map (fun w => (w.counter, w.colors))
      = countersFrom 0 (colorsCollection st cloudThemes) := by
  unfold fillButtons fillLoop
  rw [foldl_fillStep_widgets]
  simp

theorem animationStep_bgs_length (animColor : QColor → QColor → ℚ → QColor)
    (colors : Colors) (value : ℚ) (s : State) (h : s.bgs.length = 4) :
    (animationStep animColor colors value s).bgs.length = 4 := by
  unfold animationStep
  dsimp only
  split
  · rfl
  · exact h

theorem animationRun_bgs_length (animColor : QColor → QColor → ℚ → QColor)
    (colors : Colors) (values : List ℚ) (s : State) (h : s.bgs.length = 4) :
    (animationRun animColor colors values s).bgs.length = 4 := by
  unfold animationRun
  induction values generalizing s with
  | nil => exact h
  | cons v rest ih =>
    rw [List.foldl_cons]
    exact ih _ (animationStep_bgs_length animColor colors v s h)

theorem animationStep_one (animColor : QColor → QColor → ℚ → QColor)
    (hcol : ∀ a b, animColor a b 1 = b) (colors : Colors) (hc : colors.length = 4)
    (s : State) (h : s.bgs.length = 4) :
    (animationStep animColor colors 1 s).bgs = colors := by
  unfold animationStep
  rw [if_pos ⟨by rw [h, hc], by rw [h]; rfl⟩]
  match colors, hc with
  | [c0, c1, c2, c3], _ => simp [colorAt, hcol]

theorem animationStep_bgsOk (animColor : QColor → QColor → ℚ → QColor)
    (colors : Colors) (value : ℚ) (s : State) (h : bgsOk s) :
    bgsOk (animationStep animColor colors value s) := by
  unfold animationStep
  dsimp only
  split
  · right; rfl
  · exact h

theorem fill_bgsOk (st : PremiumColors) (lay : PaletteLayout)
    (cloudThemes : List CloudTheme) (s : State) (h : bgsOk s) :
    (fill st lay cloudThemes s).bgs.length = 4 := by
  obtain ⟨c, rest, _, hlen, hb⟩ := fill_bgs st lay cloudThemes s
  rw [hb]
  cases hs : s.bgs with
  | nil => simpa using hlen
  | cons x xs =>
    rcases h with h | h
    · rw [hs] at h; simp at h
    · rw [hs] at h; simpa using h

theorem runEvents_bgsOk (events : List Event) : bgsOk (runEvents events) := by
  unfold runEvents
  have hgen : ∀ (l : List Event) (s : State), bgsOk s → bgsOk (l.foldl Event.apply s) := by
    intro l
    induction l with
    | nil => intro s hs; exact hs
    | cons e rest ih =>
      intro s hs
      rw [List.foldl_cons]
      apply ih
      cases e with
      | fill st lay cloudThemes => right; exact fill_bgsOk st lay cloudThemes s hs
      | click w => exact hs
      | animate animColor colors value => exact animationStep_bgsOk animColor colors value s hs
      | slider q => exact hs
      | toggle => exact hs
  exact hgen events State.init (Or.inl rfl)

theorem log2Fuel_spec (fuel : Nat) : ∀ n : Nat, 1 ≤ n → n < 2 ^ fuel →
    2 ^ log2Fuel fuel n ≤ n ∧ n < 2 ^ (log2Fuel fuel n + 1) := by
  induction fuel with
  | zero =>
    intro n h1 h2
    simp at h2
    omega
  | succ fuel ih =>
    intro n h1 h2
    unfold log2Fuel
    by_cases h : 2 ≤ n
    · rw [if_pos h]
      have hlt : n / 2 < 2 ^ fuel := by
        rw [Nat.div_lt_iff_lt_mul (by decide)]
        rw [pow_succ] at h2
        exact h2
      obtain ⟨ha, hb⟩ := ih (n / 2) (by omega) hlt
      constructor
      · rw [pow_succ]
        have := Nat.div_mul_le_self n 2
        omega
      · rw [pow_succ]
        have : n < (n / 2 + 1) * 2 := by omega
        omega
    · rw [if_neg h]
      have : n = 1 := by omega
      subst this
      simp

theorem natLog2_spec (n : Nat) (h : 1 ≤ n) :
    2 ^ natLog2 n ≤ n ∧ n < 2 ^ (natLog2 n + 1) :=
  log2Fuel_spec n n h (Nat.lt_two_pow n)

theorem log2_bracket (a : ℚ) (N D ln ld : Nat) (hD : 0 < D) (ha : a = (N : ℚ) / (D : ℚ))
    (hn_lo : 2 ^ ln ≤ N) (hn_hi : N < 2 ^ (ln + 1))
    (hd_lo : 2 ^ ld ≤ D) (hd_hi : D < 2 ^ (ld + 1)) :
    (2 : ℚ) ^ ((ln : Int) - (ld : Int) - 1) ≤ a
    ∧ a < (2 : ℚ) ^ ((ln : Int) - (ld : Int) + 1) := by
  have hdq : (0 : ℚ) < (D : ℚ) := by exact_mod_cast hD
  have hn_hi2 : (N : ℚ) < (2 : ℚ) ^ (ln + 1) := by exact_mod_cast hn_hi
  have hd_lo2 : (2 : ℚ) ^ ld ≤ (D : ℚ) := by exact_mod_cast hd_lo
  have hn_lo2 : (2 : ℚ) ^ ln ≤ (N : ℚ) := by exact_mod_cast hn_lo
  have hd_hi2 : (D : ℚ) < (2 : ℚ) ^ (ld + 1) := by exact_mod_cast hd_hi
  constructor
  · have e1 : (2 : ℚ) ^ ((ln : Int) - (ld : Int) - 1)
        = (2 : ℚ) ^ ln / (2 : ℚ) ^ (ld + 1) := by
      rw [show ((ln : Int) - (ld : Int) - 1) = (ln : Int) - ((ld + 1 : Nat) : Int) by
            push_cast; ring]
      rw [zpow_sub₀ (by norm_num : (2 : ℚ) ≠ 0), zpow_natCast, zpow_natCast]
    rw [e1, ha, div_le_div_iff₀ (by positivity) hdq]
    calc (2 : ℚ) ^ ln * (D : ℚ)
        ≤ (N : ℚ) * (D : ℚ) := mul_le_mul_of_nonneg_right hn_lo2 (le_of_lt hdq)
      _ ≤ (N : ℚ) * (2 : ℚ) ^ (ld + 1) :=
          mul_le_mul_of_nonneg_left (le_of_lt hd_hi2) (by positivity)
  · have e1 : (2 : ℚ) ^ ((ln : Int) - (ld : Int) + 1)
        = (2 : ℚ) ^ (ln + 1) / (2 : ℚ) ^ ld := by
      rw [show ((ln : Int) - (ld : Int) + 1) = ((ln + 1 : Nat) : Int) - (ld : Int) by
            push_cast; ring]
      rw [zpow_sub₀ (by norm_num : (2 : ℚ) ≠ 0), zpow_natCast, zpow_natCast]
    rw [e1, ha, div_lt_div_iff₀ hdq (by positivity)]
    calc (N : ℚ) * (2 : ℚ) ^ ld
        ≤ (N : ℚ) * (D : ℚ) := mul_le_mul_of_nonneg_left hd_lo2 (by positivity)
      _ < (2 : ℚ) ^ (ln + 1) * (D : ℚ) := mul_lt_mul_of_pos_right hn_hi2 hdq

theorem ratLog2_spec (a : ℚ) (h : 0 < a) :
    (2 : ℚ) ^ ratLog2 a ≤ a ∧ a < (2 : ℚ) ^ (ratLog2 a + 1) := by
  have hnum : 0 < a.num := Rat.num_pos.2 h
  have hden : 1 ≤ a.den := a.den_pos
  have hn1 : 1 ≤ a.num.natAbs := by omega
  obtain ⟨hn_lo, hn_hi⟩ := natLog2_spec a.num.natAbs hn1
  obtain ⟨hd_lo, hd_hi⟩ := natLog2_spec a.den hden
  have hnumq : ((a.num.natAbs : Nat) : ℚ) = (a.num : ℚ) := by
    rw [← Int.cast_natCast, Int.natAbs_of_nonneg (le_of_lt hnum)]
  have ha : a = ((a.num.natAbs : Nat) : ℚ) / ((a.den : Nat) : ℚ) := by
    rw [hnumq]
    exact (Rat.num_div_den a).symm
  obtain ⟨hlow, hup⟩ := log2_bracket a a.num.natAbs a.den (natLog2 a.num.natAbs)
    (natLog2 a.den) hden ha hn_lo hn_hi hd_lo hd_hi
  unfold ratLog2
  dsimp only
  by_cases hc : (2 : ℚ) ^ ((natLog2 a.num.natAbs : Int) - (natLog2 a.den : Int)) ≤ a
  · rw [if_pos hc]
    exact ⟨hc, hup⟩
  · rw [if_neg hc]
    refine ⟨hlow, ?_⟩
    rw [sub_add_cancel]
    exact lt_of_not_le hc

theorem roundHalfEven_err (s : ℚ) : |((roundHalfEven s : Int) : ℚ) - s| ≤ 1 / 2 := by
  have h1 : ((⌊s⌋ : Int) : ℚ) ≤ s := Int.floor_le s
  have h2 : s < ((⌊s⌋ : Int) : ℚ) + 1 := Int.lt_floor_add_one s
  unfold roundHalfEven
  dsimp only
  rw [abs_le]
  split
  · constructor <;> linarith
  · split
    · push_cast
      constructor <;> linarith
    · split
      · constructor <;> linarith
      · push_cast
        constructor <;> linarith

theorem scaled_round_err (a : ℚ) (L : Int) (hlo : (2 : ℚ) ^ L ≤ a) :
    abs (((roundHalfEven (a / (2 : ℚ) ^ (L - 52)) : Int) : ℚ) * (2 : ℚ) ^ (L - 52) - a)
      ≤ a / 2 ^ 53 := by
  have h2e : (0 : ℚ) < (2 : ℚ) ^ (L - 52) := by positivity
  have hsplit : (2 : ℚ) ^ (L - 52) = (2 : ℚ) ^ L / 2 ^ 52 := by
    rw [zpow_sub₀ (by norm_num : (2 : ℚ) ≠ 0)]
    norm_cast
  have hm := roundHalfEven_err (a / (2 : ℚ) ^ (L - 52))
  have e1 : ((roundHalfEven (a / (2 : ℚ) ^ (L - 52)) : Int) : ℚ) * (2 : ℚ) ^ (L - 52) - a
      = (((roundHalfEven (a / (2 : ℚ) ^ (L - 52)) : Int) : ℚ) - a / (2 : ℚ) ^ (L - 52))
          * (2 : ℚ) ^ (L - 52) := by
    field_simp
  rw [e1, abs_mul, abs_of_pos h2e]
  calc abs (((roundHalfEven (a / (2 : ℚ) ^ (L - 52)) : Int) : ℚ) - a / (2 : ℚ) ^ (L - 52))
          * (2 : ℚ) ^ (L - 52)
      ≤ 1 / 2 * (2 : ℚ) ^ (L - 52) := mul_le_mul_of_nonneg_right hm (le_of_lt h2e)
    _ = (2 : ℚ) ^ L / 2 ^ 53 := by rw [hsplit]; ring
    _ ≤ a / 2 ^ 53 := div_le_div_of_nonneg_right hlo (by positivity)

theorem roundFloat64_err (x : ℚ) (h : (2 : ℚ) ^ (-1022 : Int) ≤ abs x) :
    abs (roundFloat64 x - x) ≤ abs x / 2 ^ 53 := by
  have hpos : (0 : ℚ) < (2 : ℚ) ^ (-1022 : Int) := by positivity
  have ha : 0 < abs x := lt_of_lt_of_le hpos h
  have hx : x ≠ 0 := abs_pos.1 ha
  obtain ⟨hlo, hhi⟩ := ratLog2_spec (abs x) ha
  have hL : (-1022 : Int) < ratLog2 (abs x) + 1 :=
    (zpow_lt_zpow_iff_right₀ (by norm_num : (1 : ℚ) < 2)).1 (lt_of_le_of_lt h hhi)
  have he : max (ratLog2 (abs x) - 52) (-1074) = ratLog2 (abs x) - 52 :=
    max_eq_left (by omega)
  have hkey := scaled_round_err (abs x) (ratLog2 (abs x)) hlo
  unfold roundFloat64
  rw [if_neg hx]
  dsimp only
  rw [he]
  by_cases hneg : x < 0
  · rw [if_pos hneg]
    have hax : abs x = -x := abs_of_neg hneg
    have e2 : ∀ t : ℚ, -1 * t - x = -(t - abs x) := by
      intro t
      rw [hax]; ring
    rw [e2, abs_neg]
    exact hkey
  · rw [if_neg hneg]
    have hax : abs x = x := abs_of_nonneg (not_lt.1 hneg)
    have e2 : ∀ t : ℚ, 1 * t - x = t - abs x := by
      intro t
      rw [hax]; ring
    rw [e2]
    exact hkey

theorem roundFloat64_near (y c : ℚ) (hlo : 1 / 1000000 ≤ y) (hc : y ≤ c) :
    y - c / 9007199254740992 ≤ roundFloat64 y
    ∧ roundFloat64 y ≤ y + c / 9007199254740992 := by
  have hy : 0 < y := lt_of_lt_of_le (by norm_num) hlo
  have habs : |y| = y := abs_of_pos hy
  have htiny : (2 : ℚ) ^ (-1022 : Int) ≤ |y| := by
    rw [habs]
    refine le_trans ?_ hlo
    have h1 : (2 : ℚ) ^ (-1022 : Int) ≤ (2 : ℚ) ^ (-20 : Int) :=
      zpow_le_zpow_right₀ (by norm_num) (by norm_num)
    refine le_trans h1 ?_
    norm_num
  have h := roundFloat64_err y htiny
  rw [habs, abs_le] at h
  have hpow : (2 : ℚ) ^ 53 = 9007199254740992 := by norm_num
  rw [hpow] at h
  have hyc : y / 9007199254740992 ≤ c / 9007199254740992 :=
    div_le_div_of_nonneg_right hc (by norm_num)
  constructor <;> linarith [h.1, h.2]

theorem residueGood_generic (m : Int) (h0 : 0 ≤ m) (h1 : m < 10000)
    (hf : m % 1250 ≠ 0) : residueGood m := by
  have hk0 : 0 ≤ m / 1250 := by omega
  have hk7 : m / 1250 ≤ 7 := by omega
  have hf1 : 1 ≤ m % 1250 := by omega
  have hf2 : m % 1250 ≤ 1249 := by omega
  have hm : m = 1250 * (m / 1250) + m % 1250 := by omega
  have hmq : (m : ℚ) = 1250 * ((m / 1250 : Int) : ℚ) + ((m % 1250 : Int) : ℚ) := by
    exact_mod_cast hm
  have hkq0 : (0 : ℚ) ≤ ((m / 1250 : Int) : ℚ) := by exact_mod_cast hk0
  have hkq7 : ((m / 1250 : Int) : ℚ) ≤ 7 := by exact_mod_cast hk7
  have hfq1 : (1 : ℚ) ≤ ((m % 1250 : Int) : ℚ) := by exact_mod_cast hf1
  have hfq2 : ((m % 1250 : Int) : ℚ) ≤ 1249 := by exact_mod_cast hf2
  have hc : cmod m kDuration = m := by
    unfold cmod kDuration
    rw [Int.tmod_eq_emod h0 (by decide)]
    exact Int.emod_eq_of_lt h0 h1
  have hex : exactAngle m = 360 * (m : ℚ) / 10000 := by
    unfold exactAngle
    rw [Int.emod_eq_of_lt h0 h1]
  have hkd : ((kDuration : Int) : ℚ) = 10000 := by norm_num [kDuration]
  -- angle
  have n1 := roundFloat64_near ((m : ℚ) / 10000) 1 (by linarith) (by linarith)
  have n2 := roundFloat64_near (roundFloat64 ((m : ℚ) / 10000) * 360) 361
    (by linarith [n1.1]) (by linarith [n1.2])
  have hangle : paintAngle m
      = roundFloat64 (roundFloat64 ((m : ℚ) / 10000) * 360) := by
    unfold paintAngle
    rw [hc, hkd]
  rw [← hangle] at n2
  -- rotation
  have n3 := roundFloat64_near (paintAngle m / 45) 9
    (by linarith [n1.1, n2.1]) (by linarith [n1.2, n2.2])
  have hfloor : ⌊roundFloat64 (paintAngle m / 45)⌋ = m / 1250 := by
    rw [Int.floor_eq_iff]
    constructor
    · linarith [n1.1, n2.1, n3.1]
    · linarith [n1.2, n2.2, n3.2]
  have hrot : gradientRotation m = m / 1250 * 45 := by
    unfold gradientRotation truncToInt
    rw [if_pos (by linarith [n1.1, n2.1, n3.1]), hfloor]
  have hrotq : (gradientRotation m : ℚ) = ((m / 1250 : Int) : ℚ) * 45 := by
    rw [hrot]
    push_cast
    ring
  -- progress
  have n4 := roundFloat64_near (paintAngle m - (gradientRotation m : ℚ)) 46
    (by rw [hrotq]; linarith [n1.1, n2.1]) (by rw [hrotq]; linarith [n1.2, n2.2])
  have hadd : gradientRotationAdd m
      = roundFloat64 (paintAngle m - (gradientRotation m : ℚ)) := rfl
  rw [← hadd] at n4
  rw [hrotq] at n4
  have n5 := roundFloat64_near (gradientRotationAdd m / 45) 1
    (by linarith [n1.1, n2.1, n4.1]) (by linarith [n1.2, n2.2, n4.2])
  have n6 := roundFloat64_near (1 - roundFloat64 (gradientRotationAdd m / 45)) 1
    (by linarith [n1.2, n2.2, n4.2, n5.2]) (by linarith [n1.1, n2.1, n4.1, n5.1])
  have hprog : gradientProgress m
      = roundFloat64 (1 - roundFloat64 (gradientRotationAdd m / 45)) := rfl
  rw [← hprog] at n6
  refine ⟨by rw [hrot]; ring, ?_, ?_, ?_⟩
  · linarith [n1.2, n2.2, n4.2, n5.2, n6.1]
  · linarith [n1.1, n2.1, n4.1, n5.1, n6.2]
  · rw [hrotq, hex, abs_le]
    constructor
    · linarith [n1.1, n2.1, n4.1, n5.1, n6.1, n1.2, n2.2, n4.2, n5.2, n6.2]
    · linarith [n1.1, n2.1, n4.1, n5.1, n6.1, n1.2, n2.2, n4.2, n5.2, n6.2]

theorem residueGood_multiple (k : Int) (h0 : 0 ≤ k) (h1 : k ≤ 7) :
    residueGood (1250 * k) := by
  have hk : k = 0 ∨ k = 1 ∨ k = 2 ∨ k = 3 ∨ k = 4 ∨ k = 5 ∨ k = 6 ∨ k = 7 := by omega
  rcases hk with h | h | h | h | h | h | h | h <;> subst h <;> decide!

theorem residueGood_all (m : Int) (h0 : 0 ≤ m) (h1 : m < 10000) : residueGood m := by
  by_cases hf : m % 1250 = 0
  · have hm : m = 1250 * (m / 1250) := by omega
    rw [hm]
    exact residueGood_multiple (m / 1250) (by omega) (by omega)
  · exact residueGood_generic m h0 h1 hf

theorem cmod_residue (now : Int) (h : 0 ≤ now) :
    cmod now kDuration = now % 10000 ∧ cmod (now % 10000) kDuration = now % 10000 := by
  have hm : 0 ≤ now % 10000 := Int.emod_nonneg now (by decide)
  constructor
  · exact cmod_eq_emod h (by decide)
  · unfold kDuration
    rw [cmod_eq_emod hm (by decide)]
    omega

theorem gradient_congr (now1 now2 : Int)
    (h : cmod now1 kDuration = cmod now2 kDuration) :
    gradientRotation now1 = gradientRotation now2
    ∧ gradientProgress now1 = gradientProgress now2 := by
  have ha : paintAngle now1 = paintAngle now2 := by
    unfold paintAngle
    rw [h]
  have hr : gradientRotation now1 = gradientRotation now2 := by
    unfold gradientRotation
    rw [ha]
  refine ⟨hr, ?_⟩
  unfold gradientProgress gradientRotationAdd
  rw [ha, hr]

theorem gradient_of_now (now : Int) (h : 0 ≤ now) :
    gradientRotation now = 45 * (now % 10000 / 1250)
    ∧ 0 < gradientProgress now
    ∧ gradientProgress now ≤ 1
    ∧ abs ((gradientRotation now : ℚ) + 45 * (1 - gradientProgress now) - exactAngle now)
        ≤ 1 / 10 ^ 13 := by
  obtain ⟨hc1, hc2⟩ := cmod_residue now h
  obtain ⟨hr, hp⟩ := gradient_congr now (now % 10000) (by rw [hc1, hc2])
  have hex : exactAngle now = exactAngle (now % 10000) := by
    unfold exactAngle
    rw [Int.emod_emod_of_dvd now (by decide : (10000 : Int) ∣ 10000)]
  have hgood := residueGood_all (now % 10000) (Int.emod_nonneg now (by decide))
    (Int.emod_lt_of_pos now (by decide))
  unfold residueGood at hgood
  rw [hr, hp, hex]
  exact hgood

theorem gradient_injective (now1 now2 : Int) (h1 : 0 ≤ now1) (h2 : 0 ≤ now2)
    (hr : gradientRotation now1 = gradientRotation now2)
    (hp : gradientProgress now1 = gradientProgress now2) :
    now1 % 10000 = now2 % 10000 := by
  obtain ⟨_, _, _, ha⟩ := gradient_of_now now1 h1
  obtain ⟨_, _, _, hb⟩ := gradient_of_now now2 h2
  rw [hr, hp] at ha
  rw [abs_le] at ha hb
  unfold exactAngle at ha hb
  by_contra hne
  rcases lt_or_gt_of_ne hne with hlt | hgt
  · have : now1 % 10000 + 1 ≤ now2 % 10000 := by omega
    have hq : ((now1 % 10000 : Int) : ℚ) + 1 ≤ ((now2 % 10000 : Int) : ℚ) := by
      exact_mod_cast this
    linarith [ha.1, ha.2, hb.1, hb.2]
  · have : now2 % 10000 + 1 ≤ now1 % 10000 := by omega
    have hq : ((now2 % 10000 : Int) : ℚ) + 1 ≤ ((now1 % 10000 : Int) : ℚ) := by
      exact_mod_cast this
    linarith [ha.1, ha.2, hb.1, hb.2]

theorem PaintGradient_some (args : PaintArgs) (now : Int)
    (himg : args.qrImage.isNull = false) (hcol : args.backgroundColors ≠ []) :
    PaintGradient args now
      = some ⟨⟨args.qrRect.width, args.qrRect.height⟩, args.backgroundColors,
          gradientRotation now, gradientProgress now⟩ := by
  unfold PaintGradient
  have he : args.backgroundColors.isEmpty = false := by
    cases hb : args.backgroundColors with
    | nil => exact absurd hb hcol
    | cons x xs => rfl
  rw [himg, he]
  rfl

theorem mapM_option_eq_map {α β : Type} (f : α → Option β) (g : α → β) (l : List α)
    (h : ∀ x ∈ l, f x = some (g x)) : l.mapM f = some (l.map g) := by
  induction l with
  | nil => rfl
  | cons x xs ih =>
    rw [List.mapM_cons, h x (List.mem_cons_self x xs),
      ih (fun y hy => h y (List.mem_cons_of_mem x hy))]
    rfl

theorem smallDots_getElem? (st : MediaSliderStyle) (count : Int) (k : Nat)
    (hk : (k : Int) < count - 1) :
    (smallDots st count)[k]? = some ⟨k, smallSize st⟩ := by
  unfold smallDots
  have hlt : k < (count - 1).toNat := by omega
  rw [List.getElem?_map, List.getElem?_range hlt]
  rfl

theorem updateSlot_eq_slotMove (st : MediaSliderStyle) (g : QRect) (count index : Int)
    (i : Nat) (h0 : 0 ≤ index) (h1 : index < count) (hi : (i : Int) < count) :
    updateSlot st g count index (i : Int) = some (slotMove st g count index i) := by
  unfold updateSlot slotMove
  dsimp only
  by_cases hidx : index = (i : Int)
  · rw [if_pos hidx, if_pos hidx]
  · rw [if_neg hidx, if_neg hidx]
    have hk0 : ¬ smallIndex index (i : Int) < 0 := by
      unfold smallIndex
      split <;> omega
    have hk1 : (((smallIndex index (i : Int)).toNat : Nat) : Int) < count - 1 := by
      unfold smallIndex
      split <;> omega
    rw [if_neg hk0, smallDots_getElem? st count _ hk1]

theorem updateGeometry_eq_map (st : MediaSliderStyle) (g : QRect) (count index : Int)
    (h0 : 0 ≤ index) (h1 : index < count) :
    updateGeometry st g count index
      = some ((List.range count.toNat).map (slotMove st g count index)) := by
  unfold updateGeometry
  apply mapM_option_eq_map
  intro i hi
  rw [List.mem_range] at hi
  exact updateSlot_eq_slotMove st g count index i h0 h1 (by omega)

theorem smallMoves_map (st : MediaSliderStyle) (g : QRect) (count : Int) (index : Nat)
    (l : List Nat) :
    smallMoves (l.map (slotMove st g count (index : Int)))
      = (l.filter (fun i => decide (i ≠ index))).map (smallIndexNat index) := by
  induction l with
  | nil => rfl
  | cons i rest ih =>
    rw [List.map_cons, List.filter_cons]
    by_cases hidx : i = index
    · have hs : slotMove st g count (index : Int) i
          = DotMove.big
              (g.x + ⌈((((g.width - st.seekSize.width) * (i : Int) : Int) : ℚ)
                / ((count - 1 : Int) : ℚ))⌉)
              (g.y + cdiv (g.height - st.seekSize.height) 2) := by
        unfold slotMove
        rw [if_pos (by rw [hidx])]
      rw [hs]
      simp only [smallMoves, ih, hidx, ne_eq, not_true_eq_false, decide_False,
        Bool.false_eq_true, if_false]
    · have hne : ¬ ((index : Int) = (i : Int)) := by omega
      have hk : (smallIndex (index : Int) (i : Int)).toNat = smallIndexNat index i := by
        unfold smallIndex smallIndexNat
        split <;> split <;> omega
      have hs : slotMove st g count (index : Int) i
          = DotMove.small (smallIndexNat index i)
              (g.x + cdiv ((g.width - (smallSize st).width) * (i : Int)) (count - 1))
              (g.y + cdiv (g.height - (smallSize st).height) 2) := by
        unfold slotMove
        rw [if_neg hne, hk]
      rw [hs]
      simp only [smallMoves, ih, hidx, ne_eq, not_false_eq_true, decide_True, if_true,
        List.map_cons]

theorem bigMoves_map (st : MediaSliderStyle) (g : QRect) (count : Int) (index : Nat)
    (l : List Nat) :
    bigMoves (l.map (slotMove st g count (index : Int))) = l.count index := by
  induction l with
  | nil => rfl
  | cons i rest ih =>
    rw [List.map_cons, List.count_cons]
    by_cases hidx : i = index
    · have hs : ∃ x y, slotMove st g count (index : Int) i = DotMove.big x y := by
        unfold slotMove
        rw [if_pos (by rw [hidx])]
        exact ⟨_, _, rfl⟩
      obtain ⟨x, y, hs⟩ := hs
      rw [hs]
      simp [bigMoves, ih, hidx]
    · have hne : ¬ ((index : Int) = (i : Int)) := by omega
      have hs : ∃ k x y, slotMove st g count (index : Int) i = DotMove.small k x y := by
        unfold slotMove
        rw [if_neg hne]
        exact ⟨_, _, _, rfl⟩
      obtain ⟨k, x, y, hs⟩ := hs
      rw [hs]
      simp [bigMoves, ih, hidx]

theorem smallIndexNat_range (index n : Nat) (h : index < n) :
    ((List.range n).filter (fun i => decide (i ≠ index))).map (smallIndexNat index)
      = List.range (n - 1) := by
  induction n with
  | zero => omega
  | succ n ih =>
    rw [List.range_succ, List.filter_append, List.map_append]
    by_cases hidx : index = n
    · have hself : (List.range n).filter (fun i => decide (i ≠ index)) = List.range n := by
        rw [List.filter_eq_self]
        intro a ha
        rw [List.mem_range] at ha
        simp only [ne_eq, decide_not, Bool.not_eq_true', decide_eq_false_iff_not]
        omega
      have hid : (List.range n).map (smallIndexNat index) = List.range n := by
        conv_rhs => rw [← List.map_id (List.range n)]
        apply List.map_congr_left
        intro a ha
        rw [List.mem_range] at ha
        unfold smallIndexNat
        rw [if_pos (by omega)]
        rfl
      rw [hself, hid]
      simp [hidx]
    · have hlt : index < n := by omega
      rw [ih hlt]
      have hn : n ≠ index := fun h => hidx h.symm
      have hlast : smallIndexNat index n = n - 1 := by
        unfold smallIndexNat
        rw [if_neg (by omega)]
      simp only [List.filter_cons, List.filter_nil, ne_eq, hn, not_false_eq_true,
        decide_True, if_true, List.map_cons, List.map_nil, hlast]
      have : n + 1 - 1 = (n - 1) + 1 := by omega
      rw [this, List.range_succ]

theorem fillStep_placed (lay : PaletteLayout) (acc : FillAcc) (colors : Colors)
    (hc : 0 ≤ acc.counter) (hr : acc.rows = (acc.counter + 3) / 4)
    (hw : ∀ w ∈ acc.widgets, buttonPlaced lay w) :
    0 ≤ (fillStep lay acc colors).counter
    ∧ (fillStep lay acc colors).rows = ((fillStep lay acc colors).counter + 3) / 4
    ∧ ∀ w ∈ (fillStep lay acc colors).widgets, buttonPlaced lay w := by
  have hm : cmod acc.counter kMaxInRow = acc.counter % 4 := cmod_eq_emod hc (by decide)
  simp only [fillStep, hm]
  refine ⟨by omega, ?_, ?_⟩
  · split <;> omega
  · intro w hmem
    rw [List.mem_append, List.mem_singleton] at hmem
    rcases hmem with hmem | rfl
    · exact hw w hmem
    · refine ⟨hc, ?_, rfl⟩
      dsimp only
      split <;> omega

theorem foldl_fillStep_placed (lay : PaletteLayout) (l : List Colors) (acc : FillAcc)
    (hc : 0 ≤ acc.counter) (hr : acc.rows = (acc.counter + 3) / 4)
    (hw : ∀ w ∈ acc.widgets, buttonPlaced lay w) :
    ∀ w ∈ (l.foldl (fillStep lay) acc).widgets, buttonPlaced lay w := by
  induction l generalizing acc with
  | nil => exact hw
  | cons c rest ih =>
    obtain ⟨h1, h2, h3⟩ := fillStep_placed lay acc c hc hr hw
    rw [List.foldl_cons]
    exact ih _ h1 h2 h3

theorem fillButtons_placed (st : PremiumColors) (lay : PaletteLayout)
    (cloudThemes : List CloudTheme) (s : State) :
    ∀ w ∈ fillButtons st lay cloudThemes s, buttonPlaced lay w := by
  unfold fillButtons fillLoop
  apply foldl_fillStep_placed
  · exact le_refl 0
  · rfl
  · intro w hw
    cases hw

theorem countersFrom_fst_ge (l : List Colors) (c : Int) :
    ∀ p ∈ countersFrom c l, c ≤ p.1 := by
  induction l generalizing c with
  | nil => intro p hp; cases hp
  | cons x xs ih =>
    intro p hp
    rw [countersFrom, List.mem_cons] at hp
    rcases hp with rfl | hp
    · exact le_refl _
    · have := ih (c + 1) p hp
      omega

theorem countersFrom_nodup (l : List Colors) (c : Int) :
    ((countersFrom c l).map Prod.fst).Nodup := by
  induction l generalizing c with
  | nil => exact List.nodup_nil
  | cons x xs ih =>
    rw [countersFrom, List.map_cons, List.nodup_cons]
    refine ⟨?_, ih (c + 1)⟩
    intro hmem
    rw [List.mem_map] at hmem
    obtain ⟨p, hp, hpc⟩ := hmem
    have := countersFrom_fst_ge xs (c + 1) p hp
    omega

theorem fillButtons_counters_nodup (st : PremiumColors) (lay : PaletteLayout)
    (cloudThemes : List CloudTheme) (s : State) :
    ((fillButtons st lay cloudThemes s).map (fun w => w.counter)).Nodup := by
  have h := congrArg (List.map Prod.fst) (fillButtons_pairs st lay cloudThemes s)
  rw [List.map_map] at h
  have hf : (Prod.fst ∘ fun w : PaletteButton => (w.counter, w.colors))
      = fun w => w.counter := rfl
  rw [hf] at h
  rw [h]
  exact countersFrom_nodup _ 0

theorem fillButtons_row_length (st : PremiumColors) (lay : PaletteLayout)
    (cloudThemes : List CloudTheme) (s : State) (r : Int) :
    ((fillButtons st lay cloudThemes s).filter (fun w => decide (w.row = r))).length
      ≤ 4 := by
  have hnd : (((fillButtons st lay cloudThemes s).filter
      (fun w => decide (w.row = r))).map (fun w => w.counter)).Nodup :=
    List.Nodup.sublist ((List.filter_sublist _).map _)
      (fillButtons_counters_nodup st lay cloudThemes s)
  have hsub : ((fillButtons st lay cloudThemes s).filter
      (fun w => decide (w.row = r))).map (fun w => w.counter)
        ⊆ [4 * r, 4 * r + 1, 4 * r + 2, 4 * r + 3] := by
    intro c hc
    rw [List.mem_map] at hc
    obtain ⟨w, hw, rfl⟩ := hc
    rw [List.mem_filter] at hw
    obtain ⟨hmem, hrow⟩ := hw
    have hrow2 : w.row = r := by simpa using hrow
    obtain ⟨h0, h1, _⟩ := fillButtons_placed st lay cloudThemes s w hmem
    simp only [List.mem_cons, List.mem_singleton, List.not_mem_nil, or_false]
    omega
  have := (List.subperm_of_subset hnd hsub).length_le
  rw [List.length_map] at this
  exact this

/-! ## Claims -/

/-- C1: for every slider position `q` in `{0, 1, 2}` the copy action renders at
`kScaleDefault * (kMaxQualities + 2 * q)`, that is `3 + 2 * q` times the default
scale (300, 500 and 700); this scale is at least `3 * kScaleDefault` and strictly
increasing in `q`. -/
theorem copyScale_of_quality (s : State) (q : Int) (h0 : 0 ≤ q) (h1 : q < kMaxQualities) :
    copyScale (sliderMoved s q) = kScaleDefault * (kMaxQualities + 2 * q)
    ∧ copyScale (sliderMoved s q) = (3 + 2 * q) * kScaleDefault
    ∧ (copyScale (sliderMoved s 0) = 3 * kScaleDefault
        ∧ copyScale (sliderMoved s 1) = 5 * kScaleDefault
        ∧ copyScale (sliderMoved s 2) = 7 * kScaleDefault)
    ∧ (q = 0 ∨ q = 1 ∨ q = 2)
    ∧ 3 * kScaleDefault ≤ copyScale (sliderMoved s q)
    ∧ ∀ q2 : Int, q < q2 → q2 < kMaxQualities →
        copyScale (sliderMoved s q) < copyScale (sliderMoved s q2) := by
  simp only [copyScale, sliderMoved, sliderCallback, sliderConvert, kScaleDefault,
    kMaxQualities] at *
  refine ⟨by omega, by omega, ⟨by omega, by omega, by omega⟩, by omega, by omega, ?_⟩
  intro q2 h2 h3
  omega

/-- C1, at the middle slider position. -/
theorem copyScale_of_quality_witness :
    copyScale (sliderMoved State.init 1) = kScaleDefault * (kMaxQualities + 2 * 1)
    ∧ copyScale (sliderMoved State.init 1) = (3 + 2 * 1) * kScaleDefault
    ∧ (copyScale (sliderMoved State.init 0) = 3 * kScaleDefault
        ∧ copyScale (sliderMoved State.init 1) = 5 * kScaleDefault
        ∧ copyScale (sliderMoved State.init 2) = 7 * kScaleDefault)
    ∧ ((1 : Int) = 0 ∨ (1 : Int) = 1 ∨ (1 : Int) = 2)
    ∧ 3 * kScaleDefault ≤ copyScale (sliderMoved State.init 1)
    ∧ ∀ q2 : Int, 1 < q2 → q2 < kMaxQualities →
        copyScale (sliderMoved State.init 1) < copyScale (sliderMoved State.init q2) :=
  copyScale_of_quality State.init 1 (by decide) (by decide)

/-- C2: for every list of cloud themes the palette built by `fill` is the list of the
Light paper colours of exactly the qualifying themes (Light setting, paper, four
colours), in the themes' order, followed by the built-in entry; so it is never empty,
has one entry more than there are qualifying themes, and each entry has four
colours. -/
theorem colorsCollection_eq_specPalette (st : PremiumColors)
    (cloudThemes : List CloudTheme) :
    colorsCollection st cloudThemes = specPalette st cloudThemes
    ∧ colorsCollection st cloudThemes ≠ []
    ∧ (colorsCollection st cloudThemes).length
        = (cloudThemes.filter qualifies).length + 1
    ∧ (colorsCollection st cloudThemes).getLast? = some (builtinColors st)
    ∧ ∀ e ∈ colorsCollection st cloudThemes, e.length = 4 := by
  refine ⟨?_, ?_, ?_, ?_, colorsCollection_length_four st cloudThemes⟩
  · unfold colorsCollection specPalette builtinColors
    rw [filter_themeColors]
  · unfold colorsCollection
    simp
  · unfold colorsCollection
    rw [filter_themeColors]
    simp
  · unfold colorsCollection
    simp

/-- C3: choosing a palette entry ends on exactly that entry. For every entry `c` of
four colours and every background of four colours, the animation step at progress 1,
run after any earlier steps, sets the background to exactly `c` (given that
`anim::color(a, b, 1)` is `b`); the button number `k` made by `fill` carries palette
entry number `k`, and its click sets `chosen` to `k`. -/
theorem click_ends_on_entry (animColor : QColor → QColor → ℚ → QColor)
    (hcol : ∀ a b, animColor a b 1 = b)
    (c : Colors) (hc : c.length = 4) (s : State) (hs : s.bgs.length = 4)
    (values : List ℚ)
    (st : PremiumColors) (lay : PaletteLayout) (cloudThemes : List CloudTheme)
    (s0 : State) (k : Nat) (w : PaletteButton)
    (hw : (fillButtons st lay cloudThemes s0)[k]? = some w) :
    (animationStep animColor c 1 (animationRun animColor c values s)).bgs = c
    ∧ (∀ i : Nat, i < 4 →
        colorAt (animationStep animColor c 1 (animationRun animColor c values s)).bgs i
          = colorAt c i)
    ∧ (fillButtons st lay cloudThemes s0).length = (colorsCollection st cloudThemes).length
    ∧ (colorsCollection st cloudThemes)[k]? = some w.colors
    ∧ (clicked w s).chosen = (k : Int)
    ∧ (animationStep animColor w.colors 1
        (animationRun animColor w.colors values (clicked w s))).bgs = w.colors := by
  have hend : ∀ (c2 : Colors) (s2 : State), c2.length = 4 → s2.bgs.length = 4 →
      (animationStep animColor c2 1 (animationRun animColor c2 values s2)).bgs = c2 := by
    intro c2 s2 hc2 hs2
    exact animationStep_one animColor hcol c2 hc2 _
      (animationRun_bgs_length animColor c2 values s2 hs2)
  have hpairs := fillButtons_pairs st lay cloudThemes s0
  have hlen : (fillButtons st lay cloudThemes s0).length
      = (colorsCollection st cloudThemes).length := by
    have := congrArg List.length hpairs
    rw [List.length_map, countersFrom_length] at this
    exact this
  have hk := congrArg (fun l => l[k]?) hpairs
  simp only [List.getElem?_map, hw, Option.map_some', countersFrom_getElem?] at hk
  cases hx : (colorsCollection st cloudThemes)[k]? with
  | none => rw [hx] at hk; simp at hk
  | some x =>
    rw [hx] at hk
    simp only [Option.map_some', Option.some.injEq, Prod.mk.injEq] at hk
    obtain ⟨hcnt, hcolors⟩ := hk
    have hx4 : w.colors.length = 4 := by
      rw [hcolors]
      exact colorsCollection_length_four st cloudThemes x (List.getElem?_mem hx)
    refine ⟨hend c s hc hs, ?_, hlen, by rw [hcolors], ?_, hend w.colors _ hx4 hs⟩
    · intro i _
      rw [hend c s hc hs]
    · simp only [clicked, hcnt]
      omega

/-- C3, on the palette of an empty theme list: the only button is number 0, with the
built-in colours. -/
theorem click_ends_on_entry_witness :
    (animationStep (fun a b v => if v = 1 then b else a)
        [⟨1, 1, 1, 1⟩, ⟨1, 1, 1, 1⟩, ⟨2, 2, 2, 2⟩, ⟨3, 3, 3, 3⟩] 1
        (animationRun (fun a b v => if v = 1 then b else a)
          [⟨1, 1, 1, 1⟩, ⟨1, 1, 1, 1⟩, ⟨2, 2, 2, 2⟩, ⟨3, 3, 3, 3⟩] [0, 1 / 2]
          ⟨true, [⟨9, 9, 9, 9⟩, ⟨8, 8, 8, 8⟩, ⟨7, 7, 7, 7⟩, ⟨6, 6, 6, 6⟩], 0, 0⟩)).bgs
      = [⟨1, 1, 1, 1⟩, ⟨1, 1, 1, 1⟩, ⟨2, 2, 2, 2⟩, ⟨3, 3, 3, 3⟩]
    ∧ (clicked ⟨0, [⟨1, 1, 1, 1⟩, ⟨1, 1, 1, 1⟩, ⟨2, 2, 2, 2⟩, ⟨3, 3, 3, 3⟩], 0, 8⟩
        ⟨true, [⟨9, 9, 9, 9⟩, ⟨8, 8, 8, 8⟩, ⟨7, 7, 7, 7⟩, ⟨6, 6, 6, 6⟩], 0, 0⟩).chosen
      = ((0 : Nat) : Int) :=
  have h := click_ends_on_entry (fun a b v => if v = 1 then b else a)
    (by intro a b; simp)
    [⟨1, 1, 1, 1⟩, ⟨1, 1, 1, 1⟩, ⟨2, 2, 2, 2⟩, ⟨3, 3, 3, 3⟩] rfl
    ⟨true, [⟨9, 9, 9, 9⟩, ⟨8, 8, 8, 8⟩, ⟨7, 7, 7, 7⟩, ⟨6, 6, 6, 6⟩], 0, 0⟩ rfl
    [0, 1 / 2]
    ⟨⟨1, 1, 1, 1⟩, ⟨2, 2, 2, 2⟩, ⟨3, 3, 3, 3⟩⟩ ⟨360, ⟨20, 0, 20, 0⟩, 70⟩ [] State.init 0
    ⟨0, [⟨1, 1, 1, 1⟩, ⟨1, 1, 1, 1⟩, ⟨2, 2, 2, 2⟩, ⟨3, 3, 3, 3⟩], 0, 8⟩ (by decide)
  ⟨h.1, h.2.2.2.2.1⟩

/-- C9: the background starts empty and every reachable state has a background of 0
or exactly 4 colours. `fill` leaves a non-empty background unchanged and sets an empty
one to the first palette entry (4 colours); an animation step changes the background
only when both the background and the target have exactly 4 colours, and then to a
4-colour list; after `fill` the background has exactly 4 colours. -/
theorem bgs_zero_or_four (events : List Event) (st : PremiumColors)
    (lay : PaletteLayout) (cloudThemes : List CloudTheme)
    (animColor : QColor → QColor → ℚ → QColor) (colors : Colors) (value : ℚ)
    (s : State) :
    State.init.bgs = []
    ∧ ((runEvents events).bgs.length = 0 ∨ (runEvents events).bgs.length = 4)
    ∧ (s.bgs ≠ [] → (fill st lay cloudThemes s).bgs = s.bgs)
    ∧ (s.bgs = [] →
        (colorsCollection st cloudThemes).head? = some (fill st lay cloudThemes s).bgs
        ∧ (fill st lay cloudThemes s).bgs.length = 4)
    ∧ ((animationStep animColor colors value s).bgs ≠ s.bgs →
        s.bgs.length = 4 ∧ colors.length = 4
        ∧ (animationStep animColor colors value s).bgs.length = 4)
    ∧ (fill st lay cloudThemes (runEvents events)).bgs.length = 4
    ∧ ((runEvents events).bgs = [] →
        (colorsCollection st cloudThemes).head?
          = some (fill st lay cloudThemes (runEvents events)).bgs) := by
  have hfill : ∀ s2 : State, (s2.bgs ≠ [] → (fill st lay cloudThemes s2).bgs = s2.bgs)
      ∧ (s2.bgs = [] →
        (colorsCollection st cloudThemes).head? = some (fill st lay cloudThemes s2).bgs
        ∧ (fill st lay cloudThemes s2).bgs.length = 4) := by
    intro s2
    obtain ⟨c, rest, hcr, hlen, hb⟩ := fill_bgs st lay cloudThemes s2
    constructor
    · intro hne
      rw [hb]
      cases hs : s2.bgs with
      | nil => exact absurd hs hne
      | cons x xs => simp
    · intro he
      rw [hb, he, hcr]
      simp [hlen]
  refine ⟨rfl, runEvents_bgsOk events, (hfill s).1, (hfill s).2, ?_,
    fill_bgsOk st lay cloudThemes _ (runEvents_bgsOk events), fun h => ((hfill _).2 h).1⟩
  intro hne
  unfold animationStep at hne ⊢
  dsimp only at hne ⊢
  by_cases hg : s.bgs.length = colors.length ∧ s.bgs.length = kMaxColors
  · rw [if_pos hg]
    obtain ⟨h1, h2⟩ := hg
    exact ⟨h2, by rw [← h1]; exact h2, rfl⟩
  · rw [if_neg hg] at hne
    exact absurd rfl hne

/-- C4, as stated, fails: the same arguments painted at clock readings 0 and 5000 ms
give gradient rotations 0 and 180. -/
theorem PaintGradient_depends_on_clock :
    (PaintGradient paintArgsSample 0).map (fun c => c.rotation) = some 0
    ∧ (PaintGradient paintArgsSample 5000).map (fun c => c.rotation) = some 180
    ∧ PaintGradient paintArgsSample 0 ≠ PaintGradient paintArgsSample 5000 := by
  decide!

/-- C4, amended: for two calls of `Paint` with equal arguments (and the same font and
device pixel ratio) at clock readings `now1, now2 >= 0`, the gradient rotation and the
gradient progress are both equal exactly when `now1 mod 10000 = now2 mod 10000`. When
the readings agree modulo 10000 the same gradient call is made and the same sequence
of drawing operations is issued; when a QR image and background colours are present
this happens only then. -/
theorem Paint_same_composition (font : StyleFont) (devicePixelRatio : Int)
    (args1 args2 : PaintArgs) (now1 now2 : Int) (hargs : args1 = args2)
    (h1 : 0 ≤ now1) (h2 : 0 ≤ now2) :
    ((gradientRotation now1 = gradientRotation now2
        ∧ gradientProgress now1 = gradientProgress now2)
      ↔ now1 % 10000 = now2 % 10000)
    ∧ (now1 % 10000 = now2 % 10000 →
        PaintGradient args1 now1 = PaintGradient args2 now2
        ∧ Paint font devicePixelRatio args1 now1 = Paint font devicePixelRatio args2 now2)
    ∧ (args1.qrImage.isNull = false → args1.backgroundColors ≠ [] →
        (PaintGradient args1 now1 = PaintGradient args2 now2
          ↔ now1 % 10000 = now2 % 10000)
        ∧ (Paint font devicePixelRatio args1 now1 = Paint font devicePixelRatio args2 now2
          ↔ now1 % 10000 = now2 % 10000)) := by
  subst hargs
  have hfwd : now1 % 10000 = now2 % 10000 →
      gradientRotation now1 = gradientRotation now2
        ∧ gradientProgress now1 = gradientProgress now2 := by
    intro hm
    apply gradient_congr
    rw [(cmod_residue now1 h1).1, (cmod_residue now2 h2).1, hm]
  have hpaint : now1 % 10000 = now2 % 10000 →
      PaintGradient args1 now1 = PaintGradient args1 now2
        ∧ Paint font devicePixelRatio args1 now1 = Paint font devicePixelRatio args1 now2 := by
    intro hm
    obtain ⟨hr, hp⟩ := hfwd hm
    have hg : PaintGradient args1 now1 = PaintGradient args1 now2 := by
      unfold PaintGradient
      rw [hr, hp]
    refine ⟨hg, ?_⟩
    unfold Paint
    rw [hg]
  refine ⟨⟨fun h => gradient_injective now1 now2 h1 h2 h.1 h.2, hfwd⟩, hpaint, ?_⟩
  intro himg hcol
  have hback : PaintGradient args1 now1 = PaintGradient args1 now2 →
      now1 % 10000 = now2 % 10000 := by
    intro hg
    rw [PaintGradient_some args1 now1 himg hcol, PaintGradient_some args1 now2 himg hcol]
      at hg
    injection hg with hg
    injection hg with _ _ hr hp
    exact gradient_injective now1 now2 h1 h2 hr hp
  refine ⟨⟨hback, fun hm => (hpaint hm).1⟩, ⟨?_, fun hm => (hpaint hm).2⟩⟩
  intro hP
  apply hback
  unfold Paint at hP
  rw [PaintGradient_some args1 now1 himg hcol, PaintGradient_some args1 now2 himg hcol]
    at hP
  rw [PaintGradient_some args1 now1 himg hcol, PaintGradient_some args1 now2 himg hcol]
  injection hP with _ hP
  injection hP with hP _
  injection hP with _ hP
  rw [hP]

/-- C4 amended, at the clock readings 2500 and 12500. -/
theorem Paint_same_composition_witness :
    PaintGradient paintArgsSample 2500 = PaintGradient paintArgsSample 12500
    ∧ Paint ⟨30, 1, "Open Sans"⟩ 2 paintArgsSample 2500
        = Paint ⟨30, 1, "Open Sans"⟩ 2 paintArgsSample 12500 :=
  (Paint_same_composition ⟨30, 1, "Open Sans"⟩ 2 paintArgsSample paintArgsSample 2500
    12500 rfl (by decide) (by decide)).2.1 (by decide)

/-- C10, as stated, fails: at the clock reading 1 ms the exact angle is 9/250 and
`Paint` passes the rotation 0 and the `float64` progress
8999993495337199 / 9007199254740992, so `rotation + 45 * (1 - progress)` is not the
angle. -/
theorem gradient_equation_inexact :
    (PaintGradient paintArgsSample 1).map (fun c => c.rotation) = some 0
    ∧ (PaintGradient paintArgsSample 1).map (fun c => c.progress)
        = some (8999993495337199 / 9007199254740992)
    ∧ exactAngle 1 = 9 / 250
    ∧ (PaintGradient paintArgsSample 1).map
          (fun c => (c.rotation : ℚ) + 45 * (1 - c.progress))
        ≠ some (exactAngle 1) := by
  decide!

/-- C10, amended: for every clock reading `now >= 0`, with the angle
`360 * (now mod 10000) / 10000` computed exactly, `Paint` (given a QR image and
background colours) passes to the gradient generator the rotation
`45 * floor(angle / 45)`, a multiple of 45 in `{0, 45, ..., 315}`, and a `float64`
progress in `(0, 1]`; `rotation + 45 * (1 - progress)` equals the angle to within
`10^-13`; and the call is periodic in `now` with period 10000. -/
theorem gradient_rotation_progress (args : PaintArgs) (now : Int) (hnow : 0 ≤ now)
    (himg : args.qrImage.isNull = false) (hcol : args.backgroundColors ≠ []) :
    ∃ call, PaintGradient args now = some call
      ∧ exactAngle now = 360 * ((now % 10000 : Int) : ℚ) / 10000
      ∧ call.rotation = 45 * ⌊exactAngle now / 45⌋
      ∧ (∃ j : Int, 0 ≤ j ∧ j ≤ 7 ∧ call.rotation = 45 * j)
      ∧ 0 < call.progress
      ∧ call.progress ≤ 1
      ∧ abs ((call.rotation : ℚ) + 45 * (1 - call.progress) - exactAngle now)
          ≤ 1 / 10 ^ 13
      ∧ PaintGradient args (now + 10000) = PaintGradient args now := by
  obtain ⟨hrot, hp0, hp1, herr⟩ := gradient_of_now now hnow
  have hfl : ⌊exactAngle now / 45⌋ = now % 10000 / 1250 := by
    have e : exactAngle now / 45 = ((now % 10000 : Int) : ℚ) / ((1250 : ℕ) : ℚ) := by
      unfold exactAngle
      push_cast
      ring
    rw [e, Rat.floor_intCast_div_natCast]
    rfl
  have hper : PaintGradient args (now + 10000) = PaintGradient args now := by
    have hc : cmod (now + 10000) kDuration = cmod now kDuration := by
      rw [(cmod_residue now hnow).1, (cmod_residue (now + 10000) (by omega)).1]
      omega
    obtain ⟨hr, hp⟩ := gradient_congr (now + 10000) now hc
    unfold PaintGradient
    rw [hr, hp]
  refine ⟨_, PaintGradient_some args now himg hcol, rfl, ?_, ?_, hp0, hp1, herr, hper⟩
  · rw [hfl]
    exact hrot
  · exact ⟨now % 10000 / 1250, by omega, by omega, hrot⟩

/-- C10 amended, at the clock reading 9999. -/
theorem gradient_rotation_progress_witness :
    ∃ call, PaintGradient paintArgsSample 9999 = some call
      ∧ call.rotation = 45 * ⌊exactAngle 9999 / 45⌋
      ∧ 0 < call.progress
      ∧ call.progress ≤ 1
      ∧ abs ((call.rotation : ℚ) + 45 * (1 - call.progress) - exactAngle 9999)
          ≤ 1 / 10 ^ 13 := by
  obtain ⟨call, h1, _, h3, _, h5, h6, h7, _⟩ :=
    gradient_rotation_progress paintArgsSample 9999 (by decide) (by decide) (by decide)
  exact ⟨call, h1, h3, h5, h6, h7⟩

/-- C5, as stated, fails: with the userpic on, margins (0, 10, 0, 0), `qrMaxSize = 10`,
a QR image of side 10, caption height 0 and `photoSize = 2`, the card spans the rows
11 to 32 of a canvas that is 22 high. -/
theorem exportCard_outside_canvas :
    exportCard true 10 ⟨0, 10, 0, 0⟩ ⟨10, 10⟩ 0 2 = ⟨0, 11, 10, 21⟩
    ∧ exportResultSize 10 ⟨0, 10, 0, 0⟩ 0 2 = ⟨10, 22⟩
    ∧ ¬ (exportCard true 10 ⟨0, 10, 0, 0⟩ ⟨10, 10⟩ 0 2).insideCanvas
        (exportResultSize 10 ⟨0, 10, 0, 0⟩ 0 2) := by
  decide

/-- C5, amended: for non-negative margins with equal left and right (the bounds on
the bottom margin and on the caption height are not needed), a QR side of at most
`qrMaxSize` and either state of the userpic toggle, the card lies inside the canvas horizontally and its top edge is inside; its bottom edge
is inside exactly when the toggle is off or
`side + top + 2 * (photoSize / 2) <= qrMaxSize + 3 * bottom + photoSize`; so the whole
card is inside the canvas whenever the top margin is at most three bottom margins. -/
theorem exportCard_inside_canvas (userpicToggled : Bool) (qrMaxSize : Int)
    (m : QMargins) (side textMaxHeight photoSize : Int)
    (hl : 0 ≤ m.left) (ht : 0 ≤ m.top) (hlr : m.left = m.right)
    (hside : side ≤ qrMaxSize)
    (hoff : userpicToggled = false → photoSize = 0)
    (hon : userpicToggled = true → 0 < photoSize) :
    0 ≤ (exportCard userpicToggled qrMaxSize m ⟨side, side⟩ textMaxHeight photoSize).x
    ∧ 0 ≤ (exportCard userpicToggled qrMaxSize m ⟨side, side⟩ textMaxHeight photoSize).y
    ∧ (exportCard userpicToggled qrMaxSize m ⟨side, side⟩ textMaxHeight photoSize).right
        ≤ (exportResultSize qrMaxSize m textMaxHeight photoSize).width
    ∧ ((exportCard userpicToggled qrMaxSize m ⟨side, side⟩ textMaxHeight photoSize).bottom
          ≤ (exportResultSize qrMaxSize m textMaxHeight photoSize).height
        ↔ (userpicToggled = false
            ∨ side + m.top + 2 * (photoSize / 2) ≤ qrMaxSize + 3 * m.bottom + photoSize))
    ∧ (m.top ≤ 3 * m.bottom →
        (exportCard userpicToggled qrMaxSize m ⟨side, side⟩ textMaxHeight
          photoSize).insideCanvas (exportResultSize qrMaxSize m textMaxHeight photoSize)) := by
  have hp : 0 ≤ photoSize := by
    cases userpicToggled with
    | false => rw [hoff rfl]
    | true => exact le_of_lt (hon rfl)
  have hd1 : cdiv photoSize 2 = photoSize / 2 := cdiv_eq_ediv hp (by decide)
  have hd2 : cdiv (qrMaxSize + (m.left + m.right) - side) 2
      = (qrMaxSize + (m.left + m.right) - side) / 2 :=
    cdiv_eq_ediv (by omega) (by decide)
  simp only [exportCard, exportResultSize, exportQrRect, exportTranslateY, roundedRect,
    Rect, QRect.addMargins, QRect.translated, QRect.right, QRect.bottom,
    QRect.insideCanvas, sumH, sumV, hd1, hd2]
  cases userpicToggled with
  | false =>
    have h0 := hoff rfl
    subst h0
    simp only [Bool.false_eq_true, if_false, ne_eq, not_true_eq_false, true_or, iff_true]
    omega
  | true =>
    have h1 := hon rfl
    have hne : photoSize ≠ 0 := by omega
    simp only [if_true, ne_eq, hne, not_false_eq_true, Bool.true_eq_false, false_or]
    omega

/-- C5 amended, with the userpic on, margins (36, 12, 36, 12), `qrMaxSize = 250`, a QR
side of 250, caption height 30 and `photoSize = 80`. -/
theorem exportCard_inside_canvas_witness :
    (exportCard true 250 ⟨36, 12, 36, 12⟩ ⟨250, 250⟩ 30 80).insideCanvas
      (exportResultSize 250 ⟨36, 12, 36, 12⟩ 30 80) :=
  (exportCard_inside_canvas true 250 ⟨36, 12, 36, 12⟩ 250 30 80 (by decide) (by decide)
    rfl (by decide) (by intro h; cases h) (by intro _; decide)).2.2.2.2 (by decide)

/-- C6: at the interface scale 75 (a scale of at least 1, below `kScaleDefault`) the
export's `divider = max(1, 75) / 100` is 0 and not at least 1, so the divisions by it
divide by zero. -/
theorem copyDivider_zero_at_75 :
    (1 : Int) ≤ 75 ∧ copyDivider 75 = 0 ∧ ¬ (1 ≤ copyDivider 75) := by
  decide

/-- C7: for `count >= 2` and `0 <= index < count` the updater returned by
`AddDotsToSlider` makes every access `smallDots[k]` in bounds; it moves the big dot
exactly once, at slot `index`, and moves the small dots `0, 1, ..., count - 2` once
each; the map `i -> (i < index ? i : i - 1)` is a bijection from the slots other than
`index` onto the small-dot indices. -/
theorem updateGeometry_moves (st : MediaSliderStyle) (g : QRect) (count index : Int)
    (hcount : 2 ≤ count) (h0 : 0 ≤ index) (h1 : index < count) :
    ∃ moves, updateGeometry st g count index = some moves
      ∧ moves.length = count.toNat
      ∧ bigMoves moves = 1
      ∧ (∃ x y, moves[index.toNat]? = some (DotMove.big x y))
      ∧ smallMoves moves = List.range (count - 1).toNat
      ∧ (∀ k : Nat, (k : Int) < count - 1 → (smallMoves moves).count k = 1)
      ∧ (smallDots st count).length = (count - 1).toNat
      ∧ (∀ i : Int, 0 ≤ i → i < count → i ≠ index →
          0 ≤ smallIndex index i ∧ smallIndex index i < count - 1)
      ∧ (∀ k : Int, 0 ≤ k → k < count - 1 →
          ∃! i : Int, (0 ≤ i ∧ i < count ∧ i ≠ index) ∧ smallIndex index i = k) := by
  obtain ⟨n, rfl⟩ : ∃ n : Nat, index = (n : Int) := ⟨index.toNat, by omega⟩
  have hn : n < count.toNat := by omega
  have hsmall : smallMoves ((List.range count.toNat).map (slotMove st g count (n : Int)))
      = List.range (count - 1).toNat := by
    rw [smallMoves_map, smallIndexNat_range n count.toNat hn]
    congr 1
    omega
  refine ⟨(List.range count.toNat).map (slotMove st g count (n : Int)),
    updateGeometry_eq_map st g count (n : Int) h0 h1, ?_, ?_, ?_, hsmall, ?_, ?_, ?_, ?_⟩
  · rw [List.length_map, List.length_range]
  · rw [bigMoves_map]
    exact List.count_eq_one_of_mem (List.nodup_range _) (List.mem_range.2 hn)
  · have hget : ((List.range count.toNat).map (slotMove st g count (n : Int)))[n]?
        = some (slotMove st g count (n : Int) n) := by
      rw [List.getElem?_map, List.getElem?_range hn]
      rfl
    have hbig : ∃ x y, slotMove st g count (n : Int) n = DotMove.big x y := by
      unfold slotMove
      rw [if_pos rfl]
      exact ⟨_, _, rfl⟩
    obtain ⟨x, y, hxy⟩ := hbig
    refine ⟨x, y, ?_⟩
    rw [Int.toNat_ofNat, hget, hxy]
  · intro k hk
    rw [hsmall]
    exact List.count_eq_one_of_mem (List.nodup_range _) (List.mem_range.2 (by omega))
  · unfold smallDots
    rw [List.length_map, List.length_range]
  · intro i hi0 hi1 hne
    unfold smallIndex
    split <;> omega
  · intro k hk0 hk1
    by_cases hkn : k < (n : Int)
    · refine ⟨k, ⟨⟨hk0, by omega, by omega⟩, ?_⟩, ?_⟩
      · unfold smallIndex
        rw [if_pos hkn]
      · intro j hj
        obtain ⟨⟨hj0, hj1, hj2⟩, hj3⟩ := hj
        unfold smallIndex at hj3
        split at hj3 <;> omega
    · refine ⟨k + 1, ⟨⟨by omega, by omega, by omega⟩, ?_⟩, ?_⟩
      · unfold smallIndex
        rw [if_neg (by omega)]
        omega
      · intro j hj
        obtain ⟨⟨hj0, hj1, hj2⟩, hj3⟩ := hj
        unfold smallIndex at hj3
        split at hj3 <;> omega

/-- C7, for the three quality dots with the big dot in the middle. -/
theorem updateGeometry_moves_witness :
    ∃ moves, updateGeometry ⟨⟨14, 14⟩, 2⟩ ⟨10, 20, 200, 14⟩ 3 1 = some moves
      ∧ moves.length = 3
      ∧ bigMoves moves = 1
      ∧ smallMoves moves = [0, 1] := by
  obtain ⟨moves, h1, h2, h3, _, h5, _⟩ :=
    updateGeometry_moves ⟨⟨14, 14⟩, 2⟩ ⟨10, 20, 200, 14⟩ 3 1 (by decide) (by decide)
      (by decide)
  exact ⟨moves, h1, h2, h3, h5⟩

/-- C8, as stated, fails: for a code of 33 modules, 100000000 pixels per module and
at most 200 pixels (`data.size > 0`, `pixel >= 1`, `max >= data.size`) the `int`
product `33 * 100000000` wraps to a negative value, the guard is false and the pixel
size stays 100000000, while `min(pixel, max / data.size)` is 6. -/
theorem TelegramQrPixel_overflow :
    (0 : Int) < 33 ∧ (1 : Int) ≤ 100000000 ∧ (33 : Int) ≤ 200
    ∧ wrapInt32 (33 * 100000000) = -994967296
    ∧ TelegramQrPixel 33 100000000 200 = some 100000000
    ∧ min (100000000 : Int) (cdiv 200 33) = 6
    ∧ TelegramQrPixel 33 100000000 200 ≠ some (min (100000000 : Int) (cdiv 200 33)) := by
  decide

/-- C8, amended: for `data.size > 0`, `pixel >= 1` and `max >= data.size` whose product
`data.size * pixel` fits an `int` (is below `2^31`), the module pixel size used by
`TelegramQr` is `min(pixel, max / data.size)`; it lies in `[1, pixel]`, keeps
`data.size * pixel` within `max`, and is the largest such value. For `data.size > 0`
the pixel size is unchanged whenever `max <= 0`, or `data.size * pixel <= max` with
the product in the `int` range; for `data.size <= 0` the function does not return. -/
theorem TelegramQrPixel_eq_min (size pixel max : Int) (hsize : 0 < size)
    (hpixel : 1 ≤ pixel) (hmax : size ≤ max) (hfit : size * pixel < 2147483648) :
    TelegramQrPixel size pixel max = some (min pixel (cdiv max size))
    ∧ cdiv max size = max / size
    ∧ 1 ≤ min pixel (cdiv max size)
    ∧ min pixel (cdiv max size) ≤ pixel
    ∧ size * min pixel (cdiv max size) ≤ max
    ∧ (∀ p : Int, p ≤ pixel → size * p ≤ max → p ≤ min pixel (cdiv max size))
    ∧ (∀ size2 pixel2 max2 : Int, 0 < size2 →
        (max2 ≤ 0 ∨ (size2 * pixel2 ≤ max2 ∧ -2147483648 ≤ size2 * pixel2
          ∧ size2 * pixel2 < 2147483648)) →
        TelegramQrPixel size2 pixel2 max2 = some pixel2)
    ∧ ∀ size2 pixel2 max2 : Int, size2 ≤ 0 → TelegramQrPixel size2 pixel2 max2 = none := by
  have hd : cdiv max size = max / size := cdiv_eq_ediv (by omega) (by omega)
  have hone : 1 ≤ max / size := (Int.le_ediv_iff_mul_le hsize).2 (by omega)
  have hmul : max / size * size ≤ max := Int.ediv_mul_le max (by omega)
  have hprod : 0 < size * pixel := Int.mul_pos hsize (by omega)
  have hwrap : wrapInt32 (size * pixel) = size * pixel := by
    unfold wrapInt32
    generalize size * pixel = x at hprod hfit
    omega
  have hkey : TelegramQrPixel size pixel max = some (min pixel (max / size)) := by
    unfold TelegramQrPixel
    rw [if_pos hsize, hwrap, hd]
    by_cases hc : max > 0 ∧ size * pixel > max
    · rw [if_pos hc]
      have hlt : max / size < pixel := by
        rw [Int.ediv_lt_iff_lt_mul hsize, Int.mul_comm]
        exact hc.2
      rw [max_eq_left hone, min_eq_right (le_of_lt hlt)]
    · rw [if_neg hc]
      have hle : size * pixel ≤ max := by
        by_contra hcon
        exact hc ⟨by omega, by omega⟩
      have : pixel ≤ max / size := by
        rw [Int.le_ediv_iff_mul_le hsize, Int.mul_comm]
        exact hle
      rw [min_eq_left this]
  rw [hd]
  refine ⟨hkey, rfl, le_min hpixel hone, min_le_left _ _, ?_, ?_, ?_, ?_⟩
  · have h1 : min pixel (max / size) ≤ max / size := min_le_right _ _
    have h2 : size * min pixel (max / size) ≤ size * (max / size) :=
      Int.mul_le_mul_of_nonneg_left h1 (by omega)
    rw [Int.mul_comm size (max / size)] at h2
    omega
  · intro p hp hsp
    refine le_min hp ?_
    rw [Int.le_ediv_iff_mul_le hsize, Int.mul_comm]
    exact hsp
  · intro size2 pixel2 max2 hs2 h
    unfold TelegramQrPixel
    rw [if_pos hs2, if_neg]
    rintro ⟨h1, h2⟩
    rcases h with h | ⟨h3, h4, h5⟩
    · omega
    · have hw : wrapInt32 (size2 * pixel2) = size2 * pixel2 := by
        unfold wrapInt32
        generalize size2 * pixel2 = x at h4 h5
        omega
      rw [hw] at h2
      omega
  · intro size2 pixel2 max2 hs2
    unfold TelegramQrPixel
    rw [if_neg (by omega)]

/-- C8 amended, for a code of 33 modules, 10 pixels per module and at most 200
pixels. -/
theorem TelegramQrPixel_eq_min_witness :
    TelegramQrPixel 33 10 200 = some 6
    ∧ TelegramQrPixel 33 10 200 = some (min 10 (cdiv 200 33))
    ∧ ∀ p : Int, p ≤ 10 → 33 * p ≤ 200 → p ≤ min 10 (cdiv 200 33) :=
  ⟨by decide,
   (TelegramQrPixel_eq_min 33 10 200 (by decide) (by decide) (by decide) (by decide)).1,
   (TelegramQrPixel_eq_min 33 10 200 (by decide) (by decide) (by decide)
     (by decide)).2.2.2.2.2.1⟩

/-- C11: for `textWidth >= 0` and `qrWidth > 0` the number of caption lines is
`textWidth / qrWidth + 1`, the smallest positive integer `n` with
`n * qrWidth > textWidth`; the reserved height is the font height times the lines. An
empty caption reserves one line, a caption whose width is a multiple of `qrWidth`
reserves one line more than `textWidth / qrWidth` lines fill, and the widget and the
copy action compute the same lines and height. -/
theorem caption_lines (fontHeight textWidth : Int) (qrImage : QImage)
    (devicePixelRatio : Int) (htext : 0 ≤ textWidth)
    (hqr : 0 < qrWidthOf qrImage devicePixelRatio) :
    PrepareQrWidgetLines textWidth qrImage devicePixelRatio
      = textWidth / qrWidthOf qrImage devicePixelRatio + 1
    ∧ 0 < PrepareQrWidgetLines textWidth qrImage devicePixelRatio
    ∧ textWidth < PrepareQrWidgetLines textWidth qrImage devicePixelRatio
        * qrWidthOf qrImage devicePixelRatio
    ∧ (∀ n : Int, 0 < n → textWidth < n * qrWidthOf qrImage devicePixelRatio →
        PrepareQrWidgetLines textWidth qrImage devicePixelRatio ≤ n)
    ∧ PrepareQrWidgetTextMaxHeight fontHeight textWidth qrImage devicePixelRatio
        = fontHeight * (textWidth / qrWidthOf qrImage devicePixelRatio + 1)
    ∧ PrepareQrWidgetLines 0 qrImage devicePixelRatio = 1
    ∧ (textWidth % qrWidthOf qrImage devicePixelRatio = 0 →
        (PrepareQrWidgetLines textWidth qrImage devicePixelRatio - 1)
          * qrWidthOf qrImage devicePixelRatio = textWidth)
    ∧ copyLines textWidth qrImage devicePixelRatio
        = PrepareQrWidgetLines textWidth qrImage devicePixelRatio
    ∧ copyTextMaxHeight fontHeight textWidth qrImage devicePixelRatio
        = PrepareQrWidgetTextMaxHeight fontHeight textWidth qrImage devicePixelRatio := by
  have hd : cdiv textWidth (qrWidthOf qrImage devicePixelRatio)
      = textWidth / qrWidthOf qrImage devicePixelRatio :=
    cdiv_eq_ediv htext (le_of_lt hqr)
  have hlines : PrepareQrWidgetLines textWidth qrImage devicePixelRatio
      = textWidth / qrWidthOf qrImage devicePixelRatio + 1 := by
    unfold PrepareQrWidgetLines
    dsimp only
    rw [hd]
  have hq0 : 0 ≤ textWidth / qrWidthOf qrImage devicePixelRatio :=
    Int.ediv_nonneg htext (le_of_lt hqr)
  refine ⟨hlines, ?_, ?_, ?_, ?_, ?_, ?_, rfl, rfl⟩
  · rw [hlines]; omega
  · rw [hlines]
    exact Int.lt_ediv_add_one_mul_self textWidth hqr
  · intro n _ hlt
    rw [hlines]
    have : textWidth / qrWidthOf qrImage devicePixelRatio < n :=
      (Int.ediv_lt_iff_lt_mul hqr).2 hlt
    omega
  · unfold PrepareQrWidgetTextMaxHeight
    rw [hlines]
  · unfold PrepareQrWidgetLines
    dsimp only
    rw [cdiv_eq_ediv (le_refl 0) (le_of_lt hqr), Int.zero_ediv]
    rfl
  · intro hmod
    rw [hlines]
    have := Int.ediv_mul_cancel_of_emod_eq_zero hmod
    rw [Int.add_sub_cancel]
    exact this

/-- C11, for a caption 500 wide under a QR code 250 wide: three lines. -/
theorem caption_lines_witness :
    PrepareQrWidgetLines 500 ⟨250, 250⟩ 1 = 3
    ∧ PrepareQrWidgetLines 500 ⟨250, 250⟩ 1 = 500 / qrWidthOf ⟨250, 250⟩ 1 + 1
    ∧ (∀ n : Int, 0 < n → 500 < n * qrWidthOf ⟨250, 250⟩ 1 →
        PrepareQrWidgetLines 500 ⟨250, 250⟩ 1 ≤ n)
    ∧ copyTextMaxHeight 30 500 ⟨250, 250⟩ 1 = 90 :=
  have h := caption_lines 30 500 ⟨250, 250⟩ 1 (by decide) (by decide)
  ⟨by decide, h.1, h.2.2.2.1, by decide⟩

/-- C12: for `count >= 2`, `0 <= index < count` and the slider value
`index / (count - 1)`, the small dot that the updater places at a slot `i` other than
`index` is painted with the active brush exactly when `i < index` and with the
inactive one exactly when `i > index`, although its paint handler tests the index it
was made at, which is the slot only left of the big dot. -/
theorem small_dot_colour (st : MediaSliderStyle) (g : QRect) (count index i : Int)
    (hcount : 2 ≤ count) (h0 : 0 ≤ index) (h1 : index < count)
    (hi0 : 0 ≤ i) (hi1 : i < count) (hne : i ≠ index) :
    ∃ dot x y, updateSlot st g count index i = some (DotMove.small dot.created x y)
      ∧ dotAtSlot st count index i = some dot
      ∧ (smallDots st count)[dot.created]? = some dot
      ∧ (dot.created : Int) = smallIndex index i
      ∧ (smallDotFg ((index : ℚ) / ((count - 1 : Int) : ℚ)) count dot = DotFg.activeFg
          ↔ i < index)
      ∧ (smallDotFg ((index : ℚ) / ((count - 1 : Int) : ℚ)) count dot = DotFg.inactiveFg
          ↔ index < i)
      ∧ ((dot.created : Int) = i ↔ i < index) := by
  obtain ⟨n, rfl⟩ : ∃ n : Nat, i = (n : Int) := ⟨i.toNat, by omega⟩
  have hidx : ¬ index = (n : Int) := fun h => hne h.symm
  have hk0 : ¬ smallIndex index (n : Int) < 0 := by
    unfold smallIndex
    split <;> omega
  have hk1 : (((smallIndex index (n : Int)).toNat : Nat) : Int) < count - 1 := by
    unfold smallIndex
    split <;> omega
  have hkk : (((smallIndex index (n : Int)).toNat : Nat) : Int) = smallIndex index (n : Int) :=
    Int.toNat_of_nonneg (by omega)
  have hdot := smallDots_getElem? st count (smallIndex index (n : Int)).toNat hk1
  have hslot := updateSlot_eq_slotMove st g count index n h0 h1 hi1
  have hmove : slotMove st g count index n
      = DotMove.small (smallIndex index (n : Int)).toNat
          (g.x + cdiv ((g.width - (smallSize st).width) * (n : Int)) (count - 1))
          (g.y + cdiv (g.height - (smallSize st).height) 2) := by
    unfold slotMove
    rw [if_neg hidx]
  have hc : (0 : ℚ) < ((count - 1 : Int) : ℚ) := by
    have : (0 : Int) < count - 1 := by omega
    exact_mod_cast this
  have hcol : (((smallIndex index (n : Int)).toNat : Int) : ℚ) / ((count - 1 : Int) : ℚ)
        < (index : ℚ) / ((count - 1 : Int) : ℚ)
      ↔ smallIndex index (n : Int) < index := by
    rw [div_lt_div_iff_of_pos_right hc, hkk]
    exact Int.cast_lt
  refine ⟨⟨(smallIndex index (n : Int)).toNat, smallSize st⟩,
    g.x + cdiv ((g.width - (smallSize st).width) * (n : Int)) (count - 1),
    g.y + cdiv (g.height - (smallSize st).height) 2, ?_, ?_, hdot, hkk, ?_, ?_, ?_⟩
  · rw [hslot, hmove]
  · unfold dotAtSlot
    dsimp only
    rw [if_neg hidx, if_neg hk0, hdot]
  · unfold smallDotFg
    dsimp only
    by_cases hlt : smallIndex index (n : Int) < index
    · have hv := hcol.2 hlt
      have hn : (n : Int) < index := by
        unfold smallIndex at hlt
        split at hlt <;> omega
      have hn2 : ¬ index < (n : Int) := by omega
      rw [if_pos hv]
      simp only [hn, hn2, reduceCtorEq]
    · have hv : ¬ ((((smallIndex index (n : Int)).toNat : Int) : ℚ)
          / ((count - 1 : Int) : ℚ) < (index : ℚ) / ((count - 1 : Int) : ℚ)) :=
        fun h => hlt (hcol.1 h)
      have hn : ¬ (n : Int) < index := by
        unfold smallIndex at hlt
        split at hlt <;> omega
      have hn2 : index < (n : Int) := by omega
      rw [if_neg hv]
      simp only [hn, hn2, reduceCtorEq]
  · unfold smallDotFg
    dsimp only
    by_cases hlt : smallIndex index (n : Int) < index
    · have hv := hcol.2 hlt
      have hn : (n : Int) < index := by
        unfold smallIndex at hlt
        split at hlt <;> omega
      have hn2 : ¬ index < (n : Int) := by omega
      rw [if_pos hv]
      simp only [hn, hn2, reduceCtorEq]
    · have hv : ¬ ((((smallIndex index (n : Int)).toNat : Int) : ℚ)
          / ((count - 1 : Int) : ℚ) < (index : ℚ) / ((count - 1 : Int) : ℚ)) :=
        fun h => hlt (hcol.1 h)
      have hn : ¬ (n : Int) < index := by
        unfold smallIndex at hlt
        split at hlt <;> omega
      have hn2 : index < (n : Int) := by omega
      rw [if_neg hv]
      simp only [hn, hn2, reduceCtorEq]
  · dsimp only
    rw [hkk]
    unfold smallIndex
    split <;> omega

/-- C12, for three dots with the big dot in the middle: the dot at slot 2 was made at
index 1 and is inactive. -/
theorem small_dot_colour_witness :
    ∃ dot x y, updateSlot ⟨⟨14, 14⟩, 2⟩ ⟨10, 20, 200, 14⟩ 3 1 2
        = some (DotMove.small dot.created x y)
      ∧ (dot.created : Int) = smallIndex 1 2
      ∧ (smallDotFg (((1 : Int) : ℚ) / ((3 - 1 : Int) : ℚ)) 3 dot = DotFg.inactiveFg
          ↔ (1 : Int) < 2) := by
  obtain ⟨dot, x, y, h1, _, _, h4, _, h6, _⟩ :=
    small_dot_colour ⟨⟨14, 14⟩, 2⟩ ⟨10, 20, 200, 14⟩ 3 1 2 (by decide) (by decide)
      (by decide) (by decide) (by decide) (by decide)
  exact ⟨dot, x, y, h1, h4, h6⟩

/-- C14: palette button number `k` made by `fill` has counter `k`, lies in row `k / 4`
at `x = spacing + (k mod 4) * (size + spacing)`; the loop starts a new row exactly
when the counter is a multiple of 4 and no row holds more than 4 buttons. For
`avail >= 4 * size` (with `avail` the box width minus the horizontal row padding) the
spacing is `(avail - 4 * size) / 5 >= 0`, `4 * size + 5 * spacing <= avail
< 4 * size + 5 * spacing + 5`, neighbouring buttons of a row do not overlap, and a
button in the fourth column plus a trailing spacing ends within `avail`. -/
theorem palette_grid (st : PremiumColors) (lay : PaletteLayout)
    (cloudThemes : List CloudTheme) (s0 : State) (k : Nat) (w : PaletteButton)
    (hw : (fillButtons st lay cloudThemes s0)[k]? = some w) :
    w.counter = (k : Int)
    ∧ w.row = (k : Int) / 4
    ∧ w.x = fillSpacing lay + ((k : Int) % 4) * (lay.size + fillSpacing lay)
    ∧ (∀ (acc : FillAcc) (colors : Colors), 0 ≤ acc.counter →
        ((fillStep lay acc colors).rows = acc.rows + 1 ↔ acc.counter % 4 = 0)
        ∧ ((fillStep lay acc colors).rows = acc.rows ↔ acc.counter % 4 ≠ 0))
    ∧ (∀ r : Int,
        ((fillButtons st lay cloudThemes s0).filter (fun b => decide (b.row = r))).length
          ≤ 4)
    ∧ (4 * lay.size ≤ lay.boxWidth - sumH lay.boxRowPadding →
        fillSpacing lay = (lay.boxWidth - sumH lay.boxRowPadding - 4 * lay.size) / 5
        ∧ 0 ≤ fillSpacing lay
        ∧ 4 * lay.size + 5 * fillSpacing lay ≤ lay.boxWidth - sumH lay.boxRowPadding
        ∧ lay.boxWidth - sumH lay.boxRowPadding < 4 * lay.size + 5 * fillSpacing lay + 5
        ∧ (∀ w2 : PaletteButton, (fillButtons st lay cloudThemes s0)[k + 1]? = some w2 →
            w2.row = w.row → w.x + lay.size ≤ w2.x)
        ∧ (∀ (k2 : Nat) (w2 : PaletteButton),
            (fillButtons st lay cloudThemes s0)[k2]? = some w2 →
            w2.row = w.row → k < k2 → 0 ≤ lay.size → w.x + lay.size ≤ w2.x)
        ∧ ((k : Int) % 4 = 3 →
            w.x + lay.size + fillSpacing lay = 4 * lay.size + 5 * fillSpacing lay
            ∧ w.x + lay.size + fillSpacing lay
                ≤ lay.boxWidth - sumH lay.boxRowPadding)) := by
  have hcounter : ∀ (j : Nat) (b : PaletteButton),
      (fillButtons st lay cloudThemes s0)[j]? = some b →
      b.counter = (j : Int) ∧ b.row = (j : Int) / 4
        ∧ b.x = fillSpacing lay + ((j : Int) % 4) * (lay.size + fillSpacing lay) := by
    intro j b hb
    have hpairs := congrArg (fun l => l[j]?) (fillButtons_pairs st lay cloudThemes s0)
    simp only [List.getElem?_map, hb, Option.map_some', countersFrom_getElem?] at hpairs
    have hcnt : b.counter = (j : Int) := by
      cases hx : (colorsCollection st cloudThemes)[j]? with
      | none => rw [hx] at hpairs; simp at hpairs
      | some x =>
        rw [hx] at hpairs
        simp only [Option.map_some', Option.some.injEq, Prod.mk.injEq] at hpairs
        omega
    obtain ⟨_, hrow, hx⟩ := fillButtons_placed st lay cloudThemes s0 b (List.getElem?_mem hb)
    rw [hcnt] at hrow hx
    exact ⟨hcnt, hrow, hx⟩
  obtain ⟨hc, hrow, hx⟩ := hcounter k w hw
  refine ⟨hc, hrow, hx, ?_, fillButtons_row_length st lay cloudThemes s0, ?_⟩
  · intro acc colors hacc
    have hm : cmod acc.counter kMaxInRow = acc.counter % 4 :=
      cmod_eq_emod hacc (by decide)
    simp only [fillStep, hm]
    constructor <;> split <;> omega
  · intro havail
    have hsp : fillSpacing lay
        = (lay.boxWidth - sumH lay.boxRowPadding - 4 * lay.size) / 5 := by
      unfold fillSpacing kMaxInRow
      rw [cdiv_eq_ediv (by omega) (by decide)]
      congr 1
      omega
    have hmod : (k : Int) % 4 = 0 ∨ (k : Int) % 4 = 1 ∨ (k : Int) % 4 = 2
        ∨ (k : Int) % 4 = 3 := by omega
    refine ⟨hsp, by omega, by omega, by omega, ?_, ?_, ?_⟩
    · intro w2 hw2 hrow2
      obtain ⟨_, hrow3, hx3⟩ := hcounter (k + 1) w2 hw2
      rw [hrow3, hrow] at hrow2
      push_cast at hrow2 hx3
      have hmod2 : ((k : Int) + 1) % 4 = (k : Int) % 4 + 1 := by omega
      rw [hx, hx3, hmod2]
      rcases hmod with h | h | h | h <;> rw [h] <;> omega
    · intro k2 w2 hw2 hrow2 hlt hsize
      obtain ⟨_, hrow3, hx3⟩ := hcounter k2 w2 hw2
      rw [hrow3, hrow] at hrow2
      have hmod2 : (k2 : Int) % 4 = 0 ∨ (k2 : Int) % 4 = 1 ∨ (k2 : Int) % 4 = 2
          ∨ (k2 : Int) % 4 = 3 := by omega
      rw [hx, hx3]
      rcases hmod with h | h | h | h <;> rcases hmod2 with h2 | h2 | h2 | h2 <;>
        rw [h, h2] <;> omega
    · intro h3
      rw [hx, h3]
      constructor <;> omega

/-- C14, for the palette of an empty theme list in a box 360 wide with row padding
20 + 20 and buttons of side 70: the only button is at `x = 8` in row 0. -/
theorem palette_grid_witness :
    (⟨0, [⟨1, 1, 1, 1⟩, ⟨1, 1, 1, 1⟩, ⟨2, 2, 2, 2⟩, ⟨3, 3, 3, 3⟩], 0, 8⟩ :
        PaletteButton).row = ((0 : Nat) : Int) / 4
    ∧ fillSpacing ⟨360, ⟨20, 0, 20, 0⟩, 70⟩ = 8
    ∧ 4 * 70 + 5 * fillSpacing ⟨360, ⟨20, 0, 20, 0⟩, 70⟩ ≤ 360 - sumH ⟨20, 0, 20, 0⟩
    ∧ 360 - sumH ⟨20, 0, 20, 0⟩ < 4 * 70 + 5 * fillSpacing ⟨360, ⟨20, 0, 20, 0⟩, 70⟩ + 5 :=
  have h := palette_grid ⟨⟨1, 1, 1, 1⟩, ⟨2, 2, 2, 2⟩, ⟨3, 3, 3, 3⟩⟩
    ⟨360, ⟨20, 0, 20, 0⟩, 70⟩ [] State.init 0
    ⟨0, [⟨1, 1, 1, 1⟩, ⟨1, 1, 1, 1⟩, ⟨2, 2, 2, 2⟩, ⟨3, 3, 3, 3⟩], 0, 8⟩ (by decide)
  have h2 := h.2.2.2.2.2 (by decide)
  ⟨h.2.1, by decide, h2.2.2.1, h2.2.2.2.1⟩

end PeerQrBox
